import Mathlib

/-!
# yuck-html: the HTML to Yuck translation engine

A shallow embedding of `pkg/parse/parse.go`.

Go strings are modelled as Lean `String`s (sequences of Unicode code points,
i.e. valid UTF-8).  A `*html.Node` that is walked through `NextSibling` is
modelled by the list of nodes starting at it (the node and its following
siblings); the nil pointer is the empty list.  `FirstChild` of a node is
therefore its list of children.
-/

namespace YuckHtml

/-! ## Data model (golang.org/x/net/html) -/

/-- The kinds of node of `html.NodeType`. -/
inductive NodeType where
  | ErrorNode
  | TextNode
  | DocumentNode
  | ElementNode
  | CommentNode
  | DoctypeNode
  | RawNode
  deriving DecidableEq, Repr

/-- An `html.Attribute`: namespace, key and value. -/
structure Attribute where
  Namespace : String
  Key : String
  Val : String
  deriving DecidableEq, Repr

/-- An `html.Node`: its type, its data (tag name of an element, content of a
text node), its attributes and its children in document order. -/
inductive Node where
  | mk (Typ : NodeType) (Data : String) (Attr : List Attribute) (children : List Node)

namespace Node

/-- Field `Type` of the node. -/
def Typ : Node → NodeType
  | mk t _ _ _ => t

/-- Field `Data` of the node. -/
def Data : Node → String
  | mk _ d _ _ => d

/-- Field `Attr` of the node. -/
def Attr : Node → List Attribute
  | mk _ _ a _ => a

/-- The children of the node, from `FirstChild` along `NextSibling`. -/
def children : Node → List Node
  | mk _ _ _ cs => cs

end Node

/-! ## Library functions used by the source (strings, strconv, unicode) -/

/-- Go `strings.Repeat` of a string, `count` times. -/
def Repeat (s : String) : Nat → String
  | 0 => ""
  | n + 1 => s ++ Repeat s n

/-- Go `strings.Join`: the elements separated by `sep`. -/
def Join : List String → String → String
  | [], _ => ""
  | [a], _ => a
  | a :: b :: rest, sep => a ++ sep ++ Join (b :: rest) sep

/-- The first piece and the later pieces of a character list cut at every
occurrence of `sep`. -/
def splitChars (sep : Char) : List Char → List Char × List (List Char)
  | [] => ([], [])
  | c :: cs =>
    if c = sep then ([], (splitChars sep cs).1 :: (splitChars sep cs).2)
    else (c :: (splitChars sep cs).1, (splitChars sep cs).2)

/-- Go `strings.Split` for a separator of one character (the source only
splits at a newline): always at least one piece. -/
def Split (s : String) (sep : Char) : List String :=
  String.mk (splitChars sep s.data).1 :: (splitChars sep s.data).2.map String.mk

/-- Go `unicode.IsSpace`: the code points with the White_Space property. -/
def isSpace (c : Char) : Bool :=
  let n := c.toNat
  (9 ≤ n && n ≤ 13) || n == 32 || n == 0x85 || n == 0xA0 || n == 0x1680
    || (0x2000 ≤ n && n ≤ 0x200A) || n == 0x2028 || n == 0x2029
    || n == 0x202F || n == 0x205F || n == 0x3000

/-- Go `strings.TrimSpace`: leading and trailing white space removed. -/
def TrimSpace (s : String) : String :=
  String.mk ((s.data.dropWhile isSpace).reverse.dropWhile isSpace).reverse

/-- Go `unicode.ToLower` on one code point.  ASCII capitals move by 32; the only
code points outside ASCII whose lower case is an ASCII letter are U+0130 (to
`i`) and U+212A (to `k`).  Every other code point outside ASCII has a lower case
outside ASCII and is left as it is here: the source only compares the lowered
string with the ASCII words `true` and `false`. -/
def toLowerRune (c : Char) : Char :=
  if 65 ≤ c.toNat ∧ c.toNat ≤ 90 then Char.ofNat (c.toNat + 32)
  else if c.toNat = 0x130 then 'i'
  else if c.toNat = 0x212A then 'k'
  else c

/-- Go `strings.ToLower`. -/
def ToLower (s : String) : String :=
  String.mk (s.data.map toLowerRune)

/-- Value of a list of decimal digits read after the value `acc`; `none` at
a character that is not an ASCII digit. -/
def parseDigits : List Char → Nat → Option Nat
  | [], acc => some acc
  | c :: cs, acc =>
    if 48 ≤ c.toNat ∧ c.toNat ≤ 57 then parseDigits cs (acc * 10 + (c.toNat - 48))
    else none

/-- Size in bits of Go `int` (a 64-bit platform). -/
def intSize : Nat := 64

/-- Go `strconv.Atoi`: `some n` when the call returns a nil error.  The string
is an optional sign followed by at least one decimal digit, and the value fits
a signed integer of `intSize` bits; anything else is a syntax or range error. -/
def Atoi (s : String) : Option Int :=
  match s.data with
  | [] => none
  | c :: cs =>
    if c = '-' then
      match cs with
      | [] => none
      | _ :: _ =>
        match parseDigits cs 0 with
        | none => none
        | some n => if n ≤ 2 ^ (intSize - 1) then some (-(n : Int)) else none
    else if c = '+' then
      match cs with
      | [] => none
      | _ :: _ =>
        match parseDigits cs 0 with
        | none => none
        | some n => if n < 2 ^ (intSize - 1) then some (n : Int) else none
    else
      match parseDigits (c :: cs) 0 with
      | none => none
      | some n => if n < 2 ^ (intSize - 1) then some (n : Int) else none

/-! ## pkg/parse/parse.go -/

/-- Source `getType`.  The byte tests `len(attr) > 1 && attr[0] == o &&
attr[len(attr)-1] == c` are made on code points: the delimiters are ASCII, so
the first (last) byte is the delimiter exactly when the first (last) code point
is, and then more than one byte means more than one code point.
`Char.ofNat 123` and `Char.ofNat 125` are the opening and the closing brace. -/
def getType (attr : String) : String :=
  if (Atoi attr).isSome then attr
  else if attr.data.length > 1 ∧ attr.data.head? = some (Char.ofNat 123)
      ∧ attr.data.getLast? = some (Char.ofNat 125) then attr
  else if attr.data.length > 1 ∧ attr.data.head? = some '('
      ∧ attr.data.getLast? = some ')' then attr
  else if attr.data.length > 1 ∧ attr.data.head? = some '['
      ∧ attr.data.getLast? = some ']' then
    String.mk ((attr.data.drop 1).take (attr.data.length - 2))
  else if ToLower attr = "true" ∨ ToLower attr = "false" then ToLower attr
  else "\"" ++ attr ++ "\""

/-- Source `indent`: every line of `s` preceded by `spaces` blanks. -/
def indent (s : String) (spaces : Nat) : String :=
  let pad := Repeat " " spaces
  Join ((Split s '\n').map (fun line => pad ++ line)) "\n"

/-- The loop of `visitNode` over the attributes: one `:key value` fragment per
attribute with a value that is not empty. -/
def visitFields : List Attribute → List String
  | [] => []
  | a :: rest =>
    if a.Val = "" then visitFields rest
    else (":" ++ a.Key ++ " " ++ getType a.Val) :: visitFields rest

/-- Source `visitNode`. -/
def visitNode (n : Node) (level : Nat) : String :=
  if n.Typ = NodeType.TextNode then " " ++ getType n.Data
  else if n.Typ ≠ NodeType.ElementNode then ""
  else if n.Data = "" then ""
  else
    let fields := visitFields n.Attr
    let pre := indent ("\n(" ++ n.Data) (level * 2) ++ "\n"
    let data := indent (Join fields "\n") ((level + 1) * 2)
    pre ++ data

mutual
/-- Source `walkWidgets`, on the list of nodes from `n` along `NextSibling`
(empty for the nil pointer). -/
def walkWidgets (visit : Node → Nat → String) : List Node → Nat → String
  | [], _ => ")"
  | n :: rest, level =>
    visit n level ++ walkFirstChild visit n level ++ walkWidgets visit rest level
/-- The first recursive call of `walkWidgets`, made unless the node is a text
node: the walk of the node's children one level deeper. -/
def walkFirstChild (visit : Node → Nat → String) : Node → Nat → String
  | Node.mk t _ _ cs, level =>
    if t ≠ NodeType.TextNode then walkWidgets visit cs (level + 1) else ""
end

mutual
/-- Source `removeWhitespaceTextNodes`, returning the tree it leaves: the text
children that trim to nothing are removed, the other text children are
trimmed, every other child is treated recursively. -/
def removeWhitespaceTextNodes : Node → Node
  | Node.mk t d a cs => Node.mk t d a (removeWhitespaceChildren cs)
/-- The loop of `removeWhitespaceTextNodes` over the children `c`,
`c.NextSibling`, ... -/
def removeWhitespaceChildren : List Node → List Node
  | [] => []
  | c :: rest =>
    if c.Typ = NodeType.TextNode then
      if TrimSpace c.Data = "" then removeWhitespaceChildren rest
      else Node.mk c.Typ (TrimSpace c.Data) c.Attr c.children :: removeWhitespaceChildren rest
    else removeWhitespaceTextNodes c :: removeWhitespaceChildren rest
end

/-- The two anchor loops of `TranspileYuckFromHTML` (lines 29-34 and 41-46):
the first child that is an element with the given tag, with a `break`. -/
def findElement (tag : String) : List Node → Option Node
  | [] => none
  | c :: rest =>
    if c.Typ = NodeType.ElementNode ∧ c.Data = tag then some c
    else findElement tag rest

/-- Lines 60-68: the loop over the attributes of a top-level element that
collects `fields` and `name`. -/
def scanAttrs (attr : List Attribute) : List String × String :=
  attr.foldl
    (fun acc a => if a.Key ≠ "name" then (acc.1 ++ [a.Key], acc.2) else (acc.1, a.Val))
    ([], "")

/-- Lines 75-79: the loop that sets `geometry`, without a `break`. -/
def findGeometry (children : List Node) : Option Node :=
  children.foldl
    (fun geometry child =>
      if child.Typ = NodeType.ElementNode ∧ child.Data = "geometry" then some child
      else geometry)
    none

/-- Lines 81-87: the fragments of the window's own attributes. -/
def windowAttrs (attr : List Attribute) : List String :=
  attr.foldl
    (fun attrs a =>
      if a.Val = "" then attrs ++ [":" ++ a.Key]
      else attrs ++ [":" ++ a.Key ++ " \"" ++ a.Val ++ "\""])
    []

/-- Lines 89-95: the attribute list of the window once the geometry block, if
there is one, has been appended. -/
def withGeometry (attrs : List String) : Option Node → List String
  | none => attrs
  | some geometry =>
    let geomAttrs := geometry.Attr.foldl
      (fun acc ga => acc ++ [":" ++ ga.Key ++ " \"" ++ ga.Val ++ "\""]) []
    attrs ++ [":geometry (geometry " ++ Join geomAttrs "\n  " ++ ")"]

/-- Line 97: the text written before the window's children. -/
def windowHead (c : Node) (name : String) : String :=
  let geometry := findGeometry c.children
  let attrs := withGeometry (windowAttrs c.Attr) geometry
  "(defwindow " ++ name ++ "\n  " ++ Join attrs "\n  " ++ "\n"

/-- Lines 99-104: the loop over the window's children; `walkWidgets` is called
on every child that is not a geometry element, and receives the pointer to that
child, that is the child together with its following siblings. -/
def windowChildren : List Node → String
  | [] => ""
  | child :: rest =>
    (if child.Typ = NodeType.ElementNode ∧ child.Data = "geometry" then ""
     else walkWidgets visitNode (child :: rest) 1) ++ windowChildren rest

/-- Case `window` of the switch (lines 71-106). -/
def defwindow (c : Node) (name : String) : String :=
  windowHead c name ++ windowChildren c.children ++ "\n\n)"

/-- Case `widget` of the switch (lines 108-110). -/
def defwidget (c : Node) (name : String) (fields : List String) : String :=
  "(defwidget " ++ name ++ " " ++ ("[" ++ Join fields " " ++ "]")
    ++ walkWidgets visitNode c.children 2

/-- The body of the loop over the children of `body` (lines 51-115): the text
written to `out` for the child `c`. -/
def topLevel (c : Node) : String :=
  if c.Typ ≠ NodeType.ElementNode then ""
  else
    let fields := (scanAttrs c.Attr).1
    let name := (scanAttrs c.Attr).2
    if c.Data = "window" then defwindow c name
    else if c.Data = "widget" then defwidget c name fields
    else ""

/-- The header written to `out` first (line 27). -/
def header : String := ";; Auto-generated Yuck widgets from HTML ;;\n\n"

/-- Lines 26-117 of `TranspileYuckFromHTML`: the translation of the document
tree left by the normalisation. -/
def transpileTree (doc : Node) : Except String String :=
  match findElement "html" doc.children with
  | none => Except.error "no <html> tag found in input"
  | some htmlNode =>
    match findElement "body" htmlNode.children with
    | none => Except.error "no <body> tag found inside <html>"
    | some bodyNode =>
      Except.ok (bodyNode.children.foldl (fun out c => out ++ topLevel c) header)

/-- Source `TranspileYuckFromHTML`; `parse` stands for `html.Parse`, which is
not part of this repository. -/
def TranspileYuckFromHTML (parse : String → Except String Node) (input : String) :
    Except String String :=
  match parse input with
  | Except.error err => Except.error err
  | Except.ok doc => transpileTree (removeWhitespaceTextNodes doc)

/-! ## Predicates used to state the properties -/

/-- The string contains neither `(` nor `)`. -/
def noParen (s : String) : Bool :=
  s.data.all (fun c => c != '(' && c != ')')

mutual
/-- A subtree made of text nodes and of elements with a tag name that is not
empty, whose tag names, attribute keys, attribute values and text contents
contain no parenthesis. -/
def plainNode : Node → Bool
  | Node.mk t d a cs =>
    noParen d &&
      (t == NodeType.TextNode ||
        (t == NodeType.ElementNode && d != ""
          && a.all (fun x => noParen x.Key && noParen x.Val) && plainNodes cs))
/-- Every node of the list is a `plainNode`. -/
def plainNodes : List Node → Bool
  | [] => true
  | n :: rest => plainNode n && plainNodes rest
end

mutual
/-- Number of elements in the subtree of a node, the node included. -/
def elementCount : Node → Nat
  | Node.mk t _ _ cs => if t = NodeType.ElementNode then 1 + elementCountAll cs else 0
/-- Number of elements in the subtrees of the nodes of a list. -/
def elementCountAll : List Node → Nat
  | [] => 0
  | n :: rest => elementCount n + elementCountAll rest
end

/-- Well nested text: as many `)` as `(`, and no prefix of the text holds more
`)` than `(`. -/
def WellNested (s : String) : Prop :=
  s.data.count ')' = s.data.count '('
    ∧ ∀ p : List Char, p <+: s.data → p.count ')' ≤ p.count '('

/-- The characters hold `k` more `)` than `(`, and no prefix of them holds more
than `k` more. -/
def Closes (l : List Char) (k : Nat) : Prop :=
  l.count ')' = l.count '(' + k
    ∧ ∀ p : List Char, p <+: l → p.count ')' ≤ p.count '(' + k

/-- The widget of the end-to-end scenario, after normalisation:
`<widget name="w1" class="box"><box><label text="hi"/></box></widget>`. -/
def scenarioWidget : Node :=
  Node.mk NodeType.ElementNode "widget" [⟨"", "name", "w1"⟩, ⟨"", "class", "box"⟩]
    [Node.mk NodeType.ElementNode "box" []
      [Node.mk NodeType.ElementNode "label" [⟨"", "text", "hi"⟩] []]]

/-- The window `<window name="w"><box></box></window>`. -/
def windowWithBox : Node :=
  Node.mk NodeType.ElementNode "window" [⟨"", "name", "w"⟩]
    [Node.mk NodeType.ElementNode "box" [] []]

/-- The widget `<widget name="w"><box></box><label></label></widget>`. -/
def widgetWithTwoChildren : Node :=
  Node.mk NodeType.ElementNode "widget" [⟨"", "name", "w"⟩]
    [Node.mk NodeType.ElementNode "box" [] [], Node.mk NodeType.ElementNode "label" [] []]

/-- The widget `<widget name="w"><box></box></widget>`. -/
def widgetWithFirstChild : Node :=
  Node.mk NodeType.ElementNode "widget" [⟨"", "name", "w"⟩]
    [Node.mk NodeType.ElementNode "box" [] []]

/-- The children `<box></box><geometry x="0"></geometry>` of a window: the
geometry element stands after another element. -/
def boxThenGeometry : List Node :=
  [Node.mk NodeType.ElementNode "box" [] [],
   Node.mk NodeType.ElementNode "geometry" [⟨"", "x", "0"⟩] []]

/-- The window `<window><geometry x="1"></geometry><geometry x="2"></geometry></window>`. -/
def windowWithTwoGeometries : Node :=
  Node.mk NodeType.ElementNode "window" []
    [Node.mk NodeType.ElementNode "geometry" [⟨"", "x", "1"⟩] [],
     Node.mk NodeType.ElementNode "geometry" [⟨"", "x", "2"⟩] []]

/-- The window `<window name="bar"></window>`. -/
def windowNamedBar : Node :=
  Node.mk NodeType.ElementNode "window" [⟨"", "name", "bar"⟩] []

/-- The test of lines 76 and 100: an element with tag `geometry`. -/
def isGeometry (child : Node) : Bool :=
  child.Typ == NodeType.ElementNode && child.Data == "geometry"

/-- The window `<window name="bar" monitor="0" focusable>` with the children
`<geometry x="0" y="0">` and `<box>`. -/
def scenarioWindow : Node :=
  Node.mk NodeType.ElementNode "window"
    [⟨"", "name", "bar"⟩, ⟨"", "monitor", "0"⟩, ⟨"", "focusable", ""⟩]
    [Node.mk NodeType.ElementNode "geometry" [⟨"", "x", "0"⟩, ⟨"", "y", "0"⟩] [],
     Node.mk NodeType.ElementNode "box" [] []]

/-- The test of the dispatcher for a child of `body` that is built: an element
with tag `window` or `widget`. -/
def isTopLevelForm (c : Node) : Bool :=
  c.Typ == NodeType.ElementNode && (c.Data == "window" || c.Data == "widget")

/-- A document `html > (head, body)` with the given children of `body`. -/
def documentWithBody (cs : List Node) : Node :=
  Node.mk NodeType.DocumentNode "" []
    [Node.mk NodeType.ElementNode "html" []
      [Node.mk NodeType.ElementNode "head" [] [], Node.mk NodeType.ElementNode "body" [] cs]]

/-! ## Predicates on values, used to state the properties of `getType` -/

/-- An ASCII decimal digit, `0` to `9`. -/
def isDigitChar (c : Char) : Bool :=
  decide (48 ≤ c.toNat) && decide (c.toNat ≤ 57)

/-- The string is an optional `+` or `-` followed by one or more ASCII decimal
digits. -/
def isDecimalInteger (s : String) : Bool :=
  match s.data with
  | [] => false
  | c :: cs =>
    if c = '+' ∨ c = '-' then !cs.isEmpty && cs.all isDigitChar
    else (c :: cs).all isDigitChar

/-- The number written by a list of decimal digits. -/
def digitsValue (ds : List Char) : Nat :=
  ds.foldl (fun n c => n * 10 + (c.toNat - 48)) 0

/-- The integer written by a string that is a decimal integer. -/
def decimalValue (s : String) : Int :=
  match s.data with
  | [] => 0
  | c :: cs =>
    if c = '-' then -(digitsValue cs : Int)
    else if c = '+' then (digitsValue cs : Int)
    else (digitsValue (c :: cs) : Int)

/-- The character is the lower-case ASCII letter `l` or its capital. -/
def sameLetter (c l : Char) : Bool :=
  c == l || c.toNat + 32 == l.toNat

/-- The string equals the lower-case ASCII word `word` when letter case is
ignored. -/
def equalsIgnoreCase (s word : String) : Bool :=
  s.data.length == word.data.length
    && (s.data.zip word.data).all (fun p => sameLetter p.1 p.2)

/-- What one node of a sibling list adds to the output of `walkWidgets`: its own
fragment and, unless it is a text node, the walk of its children one level
deeper. -/
def nodeContribution (n : Node) (level : Nat) : String :=
  visitNode n level
    ++ (if n.Typ ≠ NodeType.TextNode then walkWidgets visitNode n.children (level + 1) else "")

/-- A run of `n` spaces. -/
def spaces (n : Nat) : String :=
  String.mk (List.replicate n ' ')

/-- Number of positions of the text at which the pattern starts. -/
def countOccurrences (pat : List Char) : List Char → Nat
  | [] => 0
  | c :: cs => (if pat.isPrefixOf (c :: cs) then 1 else 0) + countOccurrences pat cs

/-- The window `<window name="w"><box></box><label></label></window>`. -/
def windowWithTwoChildren : Node :=
  Node.mk NodeType.ElementNode "window" [⟨"", "name", "w"⟩]
    [Node.mk NodeType.ElementNode "box" [] [], Node.mk NodeType.ElementNode "label" [] []]

/-- An element with an empty tag name and no children. -/
def emptyTagElement : Node :=
  Node.mk NodeType.ElementNode "" [] []

/-! ## Predicates on trees, used to state the property of the normaliser -/

mutual
/-- The nodes below a node, in document order. -/
def descendants : Node → List Node
  | Node.mk _ _ _ cs => descendantsAll cs
/-- The nodes of a list of siblings and the nodes below them, in document
order. -/
def descendantsAll : List Node → List Node
  | [] => []
  | n :: rest => n :: (descendants n ++ descendantsAll rest)
end

mutual
/-- The invariant of a parsed tree that its text nodes have no children. -/
def textLeaves : Node → Bool
  | Node.mk t _ _ cs => (t != NodeType.TextNode || cs.isEmpty) && textLeavesAll cs
/-- Every node of the list satisfies `textLeaves`. -/
def textLeavesAll : List Node → Bool
  | [] => true
  | n :: rest => textLeaves n && textLeavesAll rest
end

/-- The type, data and attributes of a node. -/
def nodeLabel (n : Node) : NodeType × String × List Attribute :=
  (n.Typ, n.Data, n.Attr)

/-- What the normaliser leaves of a node: nothing for a text node whose content
trims to the empty string, the node with its content trimmed for any other text
node, and the node as it is otherwise. -/
def normalizedLabel (n : Node) : Option (NodeType × String × List Attribute) :=
  if n.Typ = NodeType.TextNode then
    if TrimSpace n.Data = "" then none else some (n.Typ, TrimSpace n.Data, n.Attr)
  else some (nodeLabel n)

/-- The tree `<div> <p>  hello  </p><!-- c --> </div>` before normalisation:
two text children of one space, a `p` holding the text `  hello  `, and a
comment. -/
def scenarioTree : Node :=
  Node.mk NodeType.ElementNode "div" []
    [Node.mk NodeType.TextNode " " [] [],
     Node.mk NodeType.ElementNode "p" [⟨"", "id", "x"⟩]
       [Node.mk NodeType.TextNode "  hello  " [] []],
     Node.mk NodeType.CommentNode " c " [] [],
     Node.mk NodeType.TextNode " " [] []]

/-! ## Anchors and fatal errors -/

theorem findElement_eq_find (tag : String) (cs : List Node) :
    findElement tag cs
      = cs.find? (fun c => decide (c.Typ = NodeType.ElementNode ∧ c.Data = tag)) := by
  induction cs with
  | nil => rfl
  | cons c rest ih =>
    by_cases h : c.Typ = NodeType.ElementNode ∧ c.Data = tag
    · simp [findElement, h]
    · simp only [findElement, h, if_false, ih]
      rw [List.find?_cons_of_neg]
      simpa using h

theorem findElement_eq_none (tag : String) (cs : List Node) :
    findElement tag cs = none
      ↔ ¬ ∃ c ∈ cs, c.Typ = NodeType.ElementNode ∧ c.Data = tag := by
  rw [findElement_eq_find, List.find?_eq_none]
  simp

theorem TranspileYuckFromHTML_of_parse (parse : String → Except String Node) (input : String)
    (d : Node) (h : parse input = Except.ok d) :
    TranspileYuckFromHTML parse input = transpileTree (removeWhitespaceTextNodes d) := by
  simp only [TranspileYuckFromHTML, h]

theorem TranspileYuckFromHTML_of_parse_error (parse : String → Except String Node)
    (input err : String) (h : parse input = Except.error err) :
    TranspileYuckFromHTML parse input = Except.error err := by
  simp only [TranspileYuckFromHTML, h]

/-! ## Counting characters in the emitted text -/

theorem closes_append {a b : List Char} {i j : Nat} (ha : Closes a i) (hb : Closes b j) :
    Closes (a ++ b) (i + j) := by
  refine ⟨?_, ?_⟩
  · rw [List.count_append, List.count_append, ha.1, hb.1]; omega
  · intro p hp
    rcases List.prefix_or_prefix_of_prefix hp (List.prefix_append a b) with h | h
    · have := ha.2 p h
      omega
    · obtain ⟨q, rfl⟩ := h
      have hq : q <+: b := (List.prefix_append_right_inj a).1 hp
      have h1 := hb.2 q hq
      rw [List.count_append, List.count_append, ha.1]
      omega

theorem closes_of_count_zero {a : List Char} (h1 : a.count '(' = 0) (h2 : a.count ')' = 0) :
    Closes a 0 := by
  refine ⟨by omega, ?_⟩
  intro p hp
  have := hp.sublist.count_le ')'
  omega

theorem closes_open {a b : List Char} (h1 : a.count '(' = 1) (h2 : a.count ')' = 0)
    (hb : Closes b 1) : Closes (a ++ b) 0 := by
  refine ⟨?_, ?_⟩
  · rw [List.count_append, List.count_append, hb.1]; omega
  · intro p hp
    rcases List.prefix_or_prefix_of_prefix hp (List.prefix_append a b) with h | h
    · have := h.sublist.count_le ')'
      omega
    · obtain ⟨q, rfl⟩ := h
      have hq : q <+: b := (List.prefix_append_right_inj a).1 hp
      have := hb.2 q hq
      rw [List.count_append, List.count_append]
      omega

theorem wellNested_of_closes {s : String} (h : Closes s.data 0) : WellNested s :=
  ⟨by simpa using h.1, fun p hp => by simpa using h.2 p hp⟩

theorem count_Repeat (c : Char) (s : String) (n : Nat) :
    (Repeat s n).data.count c = n * s.data.count c := by
  induction n with
  | zero => simp [Repeat]
  | succ n ih => simp [Repeat, String.data_append, List.count_append, ih]; ring

theorem count_Join_eq (c : Char) (sep : String) (hsep : sep.data.count c = 0) (l : List String) :
    (Join l sep).data.count c = (l.map (fun x => x.data.count c)).sum := by
  induction l with
  | nil => simp [Join]
  | cons a rest ih =>
    cases rest with
    | nil => simp [Join]
    | cons b rest2 =>
      simp only [Join, String.data_append, List.count_append, hsep, ih]
      simp

theorem count_splitChars (c sep : Char) (h : c ≠ sep) (l : List Char) :
    (splitChars sep l).1.count c + (((splitChars sep l).2).map (fun x => x.count c)).sum
      = l.count c := by
  induction l with
  | nil => simp [splitChars]
  | cons x xs ih =>
    by_cases hx : x = sep
    · subst hx
      simp only [splitChars, if_true, List.map_cons, List.sum_cons]
      rw [List.count_cons_of_ne h]
      simpa using ih
    · simp only [splitChars, hx, if_false]
      rw [List.count_cons, List.count_cons]
      omega

theorem count_indent (c : Char) (hs : c ≠ ' ') (hn : c ≠ '\n') (s : String) (n : Nat) :
    (indent s n).data.count c = s.data.count c := by
  have hpad : (Repeat " " n).data.count c = 0 := by
    rw [count_Repeat]
    have : (" " : String).data.count c = 0 := by
      simp [List.count_eq_zero, hs]
    rw [this]; simp
  have hsep : ("\n" : String).data.count c = 0 := by
    simp [List.count_eq_zero, hn]
  unfold indent
  rw [count_Join_eq c "\n" hsep]
  simp only [Split, List.map_cons, List.map_map, List.sum_cons, String.data_append,
    List.count_append, hpad, zero_add]
  rw [← count_splitChars c '\n' hn s.data]
  congr 2
  apply List.map_congr_left
  intro x _
  simp [String.data_append, List.count_append, hpad]

theorem noParen_iff (s : String) :
    noParen s = true ↔ s.data.count '(' = 0 ∧ s.data.count ')' = 0 := by
  simp only [noParen, List.all_eq_true, Bool.and_eq_true, bne_iff_ne, ne_eq,
    List.count_eq_zero]
  constructor
  · intro h
    exact ⟨fun hm => (h _ hm).1 rfl, fun hm => (h _ hm).2 rfl⟩
  · intro h x hx
    exact ⟨fun e => h.1 (e ▸ hx), fun e => h.2 (e ▸ hx)⟩

theorem noParen_append {a b : String} (ha : noParen a = true) (hb : noParen b = true) :
    noParen (a ++ b) = true := by
  rw [noParen_iff] at *
  simp [String.data_append, List.count_append, ha.1, ha.2, hb.1, hb.2]

theorem noParen_getType {v : String} (h : noParen v = true) : noParen (getType v) = true := by
  unfold getType
  split_ifs with h1 h2 h3 h4 h5
  · exact h
  · exact h
  · exact h
  · rw [noParen_iff] at *
    have hsub : ((v.data.drop 1).take (v.data.length - 2)).Sublist v.data :=
      (List.take_sublist _ _).trans (List.drop_sublist _ _)
    have h6 := hsub.count_le '('
    have h7 := hsub.count_le ')'
    simp only at h6 h7 ⊢
    omega
  · rcases h5 with h5 | h5 <;> rw [h5] <;> decide
  · exact noParen_append (noParen_append (by decide) h) (by decide)

theorem noParen_visitFields {attr : List Attribute}
    (h : attr.all (fun x => noParen x.Key && noParen x.Val) = true) :
    (Join (visitFields attr) "\n").data.count '(' = 0
      ∧ (Join (visitFields attr) "\n").data.count ')' = 0 := by
  have key : ∀ f ∈ visitFields attr, noParen f = true := by
    induction attr with
    | nil => simp [visitFields]
    | cons a rest ih =>
      simp only [List.all_cons, Bool.and_eq_true] at h
      intro f hf
      by_cases hv : a.Val = ""
      · simp only [visitFields, hv, if_true] at hf
        exact ih h.2 f hf
      · simp only [visitFields, hv, if_false, List.mem_cons] at hf
        rcases hf with rfl | hf
        · exact noParen_append (noParen_append (noParen_append (by decide) h.1.1) (by decide))
            (noParen_getType h.1.2)
        · exact ih h.2 f hf
  constructor
  · rw [count_Join_eq _ _ (by decide)]
    apply List.sum_eq_zero
    intro x hx
    obtain ⟨f, hf, rfl⟩ := List.mem_map.1 hx
    exact ((noParen_iff f).1 (key f hf)).1
  · rw [count_Join_eq _ _ (by decide)]
    apply List.sum_eq_zero
    intro x hx
    obtain ⟨f, hf, rfl⟩ := List.mem_map.1 hx
    exact ((noParen_iff f).1 (key f hf)).2

theorem count_visitNode_element (d : String) (a : List Attribute) (cs : List Node)
    (level : Nat) (hd : d ≠ "") (hnp : noParen d = true)
    (ha : a.all (fun x => noParen x.Key && noParen x.Val) = true) :
    (visitNode (Node.mk NodeType.ElementNode d a cs) level).data.count '(' = 1
      ∧ (visitNode (Node.mk NodeType.ElementNode d a cs) level).data.count ')' = 0 := by
  have hf := noParen_visitFields ha
  have hd2 := (noParen_iff d).1 hnp
  simp only [visitNode, Node.Typ, Node.Data, Node.Attr, hd, if_false, ne_eq,
    not_true_eq_false, reduceCtorEq, String.data_append, List.count_append]
  rw [count_indent _ (by decide) (by decide), count_indent _ (by decide) (by decide),
    count_indent _ (by decide) (by decide), count_indent _ (by decide) (by decide)]
  simp only [String.data_append, List.count_append, hf.1, hf.2, hd2.1, hd2.2]
  constructor <;> decide

theorem count_visitNode_text (d : String) (a : List Attribute) (cs : List Node)
    (level : Nat) (hnp : noParen d = true) :
    (visitNode (Node.mk NodeType.TextNode d a cs) level).data.count '(' = 0
      ∧ (visitNode (Node.mk NodeType.TextNode d a cs) level).data.count ')' = 0 := by
  have h := (noParen_iff _).1 (noParen_getType hnp)
  simp only [visitNode, Node.Typ, Node.Data, if_true, String.data_append, List.count_append,
    h.1, h.2]
  constructor <;> decide

mutual
theorem closes_walkWidgets : ∀ (ns : List Node) (level : Nat), plainNodes ns = true →
    Closes (walkWidgets visitNode ns level).data 1
  | [], _, _ => by
    simp only [walkWidgets]
    refine ⟨by decide, ?_⟩
    intro p hp
    have := hp.sublist.count_le ')'
    have h2 : List.count ')' [')'] = 1 := by decide
    simp only [h2] at this
    omega
  | n :: rest, level, h => by
    simp only [plainNodes, Bool.and_eq_true] at h
    have h1 := closes_node n level h.1
    have h2 := closes_walkWidgets rest level h.2
    have := closes_append h1 h2
    simpa [walkWidgets, String.data_append, List.append_assoc] using this
theorem closes_node : ∀ (n : Node) (level : Nat), plainNode n = true →
    Closes (visitNode n level ++ walkFirstChild visitNode n level).data 0
  | Node.mk t d a cs, level, h => by
    simp only [plainNode, Bool.and_eq_true, Bool.or_eq_true, beq_iff_eq, bne_iff_ne, ne_eq] at h
    obtain ⟨hnp, h⟩ := h
    rcases h with rfl | ⟨⟨⟨rfl, hd⟩, ha⟩, hcs⟩
    · have hv := count_visitNode_text d a cs level hnp
      simp only [walkFirstChild, ne_eq, not_true_eq_false, if_false, String.data_append]
      rw [List.append_nil]
      exact closes_of_count_zero hv.1 hv.2
    · have hv := count_visitNode_element d a cs level hd hnp ha
      have hw := closes_walkWidgets cs (level + 1) hcs
      simp only [walkFirstChild, ne_eq, reduceCtorEq, not_false_eq_true, if_true,
        String.data_append]
      exact closes_open hv.1 hv.2 hw
end

mutual
theorem count_open_walkWidgets : ∀ (ns : List Node) (level : Nat), plainNodes ns = true →
    (walkWidgets visitNode ns level).data.count '(' = elementCountAll ns
  | [], _, _ => by
    simp only [walkWidgets, elementCountAll]
    decide
  | n :: rest, level, h => by
    simp only [plainNodes, Bool.and_eq_true] at h
    have h1 := count_open_node n level h.1
    have h2 := count_open_walkWidgets rest level h.2
    simp only [String.data_append, List.count_append] at h1
    simp only [walkWidgets, elementCountAll, String.data_append, List.count_append, h2]
    omega
theorem count_open_node : ∀ (n : Node) (level : Nat), plainNode n = true →
    (visitNode n level ++ walkFirstChild visitNode n level).data.count '(' = elementCount n
  | Node.mk t d a cs, level, h => by
    simp only [plainNode, Bool.and_eq_true, Bool.or_eq_true, beq_iff_eq, bne_iff_ne, ne_eq] at h
    obtain ⟨hnp, h⟩ := h
    rcases h with rfl | ⟨⟨⟨rfl, hd⟩, ha⟩, hcs⟩
    · have hv := count_visitNode_text d a cs level hnp
      simp only [walkFirstChild, elementCount, ne_eq, not_true_eq_false, if_false,
        String.data_append, List.count_append, hv.1, reduceCtorEq]
      decide
    · have hv := count_visitNode_element d a cs level hd hnp ha
      have hw := count_open_walkWidgets cs (level + 1) hcs
      simp only [walkFirstChild, elementCount, ne_eq, reduceCtorEq, not_false_eq_true, if_true,
        String.data_append, List.count_append, hv.1, hw]
end

/-! ## Top-level forms -/

theorem scanAttrs_foldl (attr : List Attribute) (fs : List String) (nm : String) :
    attr.foldl
        (fun acc a => if a.Key ≠ "name" then (acc.1 ++ [a.Key], acc.2) else (acc.1, a.Val))
        (fs, nm)
      = (fs ++ (attr.filter (fun a => decide (a.Key ≠ "name"))).map (fun a => a.Key),
          (((attr.filter (fun a => decide (a.Key = "name"))).getLast?).map
            (fun a => a.Val)).getD nm) := by
  induction attr generalizing fs nm with
  | nil => simp
  | cons a rest ih =>
    rw [List.foldl_cons]
    by_cases h : a.Key = "name"
    · have hp : decide (a.Key = "name") = true := by simpa using h
      have hn : decide (a.Key ≠ "name") = false := by simpa using h
      rw [if_neg (not_not.2 h), ih]
      simp only [List.filter_cons, hp, hn, if_true, Bool.false_eq_true, if_false,
        List.getLast?_cons]
      cases (rest.filter (fun a => decide (a.Key = "name"))).getLast? <;> rfl
    · have hp : decide (a.Key = "name") = false := by simpa using h
      have hn : decide (a.Key ≠ "name") = true := by simpa using h
      rw [if_pos h, ih]
      simp only [List.filter_cons, hp, hn, if_true, Bool.false_eq_true, if_false,
        List.map_cons, List.append_assoc, List.singleton_append]

theorem scanAttrs_fields (attr : List Attribute) :
    (scanAttrs attr).1 = (attr.filter (fun a => decide (a.Key ≠ "name"))).map (fun a => a.Key) := by
  rw [scanAttrs, scanAttrs_foldl, List.nil_append]

theorem scanAttrs_name (attr : List Attribute) :
    (scanAttrs attr).2
      = (((attr.filter (fun a => decide (a.Key = "name"))).getLast?).map
          (fun a => a.Val)).getD "" := by
  rw [scanAttrs, scanAttrs_foldl]

theorem topLevel_widget {c : Node} (ht : c.Typ = NodeType.ElementNode) (hd : c.Data = "widget") :
    topLevel c = defwidget c (scanAttrs c.Attr).2 (scanAttrs c.Attr).1 := by
  have hne : ("widget" : String) ≠ "window" := by decide
  simp [topLevel, ht, hd, hne]

theorem topLevel_window {c : Node} (ht : c.Typ = NodeType.ElementNode) (hd : c.Data = "window") :
    topLevel c = defwindow c (scanAttrs c.Attr).2 := by
  simp [topLevel, ht, hd]

theorem noParen_scanAttrs {attr : List Attribute}
    (h : attr.all (fun x => noParen x.Key && noParen x.Val) = true) :
    noParen (scanAttrs attr).2 = true ∧ ∀ f ∈ (scanAttrs attr).1, noParen f = true := by
  simp only [List.all_eq_true, Bool.and_eq_true] at h
  constructor
  · rw [scanAttrs_name]
    cases hl : (attr.filter (fun a => decide (a.Key = "name"))).getLast? with
    | none => decide
    | some a =>
      have hm : a ∈ attr.filter (fun a => decide (a.Key = "name")) := List.mem_of_getLast?_eq_some hl
      simpa using (h a (List.mem_filter.1 hm).1).2
  · rw [scanAttrs_fields]
    intro f hf
    obtain ⟨a, ha, rfl⟩ := List.mem_map.1 hf
    exact (h a (List.mem_filter.1 ha).1).1

theorem intercalate_go_append (sep : String) (l : List String) (x y : String) :
    String.intercalate.go (x ++ y) sep l = x ++ String.intercalate.go y sep l := by
  induction l generalizing y with
  | nil => rfl
  | cons c l ih =>
    simp only [String.intercalate.go]
    rw [String.append_assoc, String.append_assoc, ih, String.append_assoc]

theorem Join_eq_intercalate (l : List String) (sep : String) :
    Join l sep = sep.intercalate l := by
  induction l with
  | nil => rfl
  | cons a rest ih =>
    cases rest with
    | nil => rfl
    | cons b rest2 =>
      rw [Join, ih]
      simp only [String.intercalate, String.intercalate.go]
      rw [intercalate_go_append]

theorem length_walkWidgets_pos (visit : Node → Nat → String) (ns : List Node) (level : Nat) :
    1 ≤ (walkWidgets visit ns level).data.length := by
  induction ns with
  | nil => simp [walkWidgets]
  | cons n rest ih =>
    simp only [walkWidgets, String.data_append, List.length_append]
    omega

theorem length_walkWidgets_cons (n : Node) (rest : List Node) (level : Nat) :
    2 ≤ (walkWidgets visitNode (n :: rest) level).data.length := by
  have h1 := length_walkWidgets_pos visitNode rest level
  have h2 : 1 ≤ (visitNode n level).data.length
      + (walkFirstChild visitNode n level).data.length := by
    cases n with
    | mk t d a cs =>
      by_cases ht : t = NodeType.TextNode
      · subst ht
        simp only [visitNode, Node.Typ, if_true, String.data_append, List.length_append,
          List.length_cons, List.length_nil]
        omega
      · have := length_walkWidgets_pos visitNode cs (level + 1)
        simp only [walkFirstChild, ne_eq, ht, not_false_eq_true, if_true]
        omega
  simp only [walkWidgets, String.data_append, List.length_append]
  omega

theorem findGeometry_foldl (cs : List Node) (g : Option Node) :
    cs.foldl
        (fun geometry child =>
          if child.Typ = NodeType.ElementNode ∧ child.Data = "geometry" then some child
          else geometry)
        g
      = ((cs.filter isGeometry).getLast?).or g := by
  induction cs generalizing g with
  | nil => cases g <;> rfl
  | cons c rest ih =>
    rw [List.foldl_cons, ih]
    by_cases h : c.Typ = NodeType.ElementNode ∧ c.Data = "geometry"
    · have hg : isGeometry c = true := by simp [isGeometry, h.1, h.2]
      rw [if_pos h]
      simp only [List.filter_cons, hg, if_true, List.getLast?_cons]
      cases (rest.filter isGeometry).getLast? <;> cases g <;> rfl
    · have hg : isGeometry c = false := by
        simpa [isGeometry] using h
      rw [if_neg h]
      simp only [List.filter_cons, hg, Bool.false_eq_true, if_false]

theorem findGeometry_eq_last (cs : List Node) :
    findGeometry cs = (cs.filter isGeometry).getLast? := by
  rw [findGeometry, findGeometry_foldl]
  cases (cs.filter isGeometry).getLast? <;> rfl

theorem foldl_append_singleton {α : Type} (f : α → String) (l : List α) (acc : List String) :
    l.foldl (fun acc x => acc ++ [f x]) acc = acc ++ l.map f := by
  induction l generalizing acc with
  | nil => simp
  | cons x rest ih => rw [List.foldl_cons, ih]; simp

theorem foldl_topLevel (cs : List Node) (out : String) :
    cs.foldl (fun out c => out ++ topLevel c) out
      = out ++ String.join ((cs.filter isTopLevelForm).map topLevel) := by
  have hjoin : ∀ (x : String) (l : List String), String.join (x :: l) = x ++ String.join l := by
    intro x l
    have key : ∀ (l : List String) (acc : String),
        l.foldl (fun r s => r ++ s) acc = acc ++ l.foldl (fun r s => r ++ s) "" := by
      intro l
      induction l with
      | nil => intro acc; simp
      | cons y l ih =>
        intro acc
        rw [List.foldl_cons, List.foldl_cons, ih, ih ("" ++ y), String.append_assoc]
        simp
    simp only [String.join, List.foldl_cons]
    rw [key]
    simp
  induction cs generalizing out with
  | nil => simp [String.join]
  | cons c rest ih =>
    rw [List.foldl_cons, ih]
    by_cases h : isTopLevelForm c = true
    · simp only [List.filter_cons, h, if_true, List.map_cons, hjoin, String.append_assoc]
    · have h2 : topLevel c = "" := by
        simp only [isTopLevelForm, Bool.and_eq_true, Bool.or_eq_true, beq_iff_eq, not_and,
          not_or] at h
        unfold topLevel
        by_cases ht : c.Typ = NodeType.ElementNode
        · simp [ht, (h ht).1, (h ht).2]
        · simp [ht]
      have h3 : isTopLevelForm c = false := by simpa using h
      simp only [List.filter_cons, h3, Bool.false_eq_true, if_false, h2, String.append_empty]

/-! ## Parentheses of a window -/

theorem windowAttrs_eq_map (attr : List Attribute) :
    windowAttrs attr
      = attr.map (fun a =>
          if a.Val = "" then ":" ++ a.Key else ":" ++ a.Key ++ " \"" ++ a.Val ++ "\"") := by
  have key : ∀ (l : List Attribute) (acc : List String),
      l.foldl
          (fun attrs a =>
            if a.Val = "" then attrs ++ [":" ++ a.Key]
            else attrs ++ [":" ++ a.Key ++ " \"" ++ a.Val ++ "\""])
          acc
        = acc ++ l.map (fun a =>
            if a.Val = "" then ":" ++ a.Key else ":" ++ a.Key ++ " \"" ++ a.Val ++ "\"") := by
    intro l
    induction l with
    | nil => intro acc; simp
    | cons a rest ih =>
      intro acc
      rw [List.foldl_cons, ih]
      by_cases hv : a.Val = "" <;> simp [hv]
  rw [windowAttrs, key, List.nil_append]

theorem count_Join_noParen (c : Char) (hc : c = '(' ∨ c = ')') (sep : String)
    (hsep : noParen sep = true) (l : List String) (hl : ∀ f ∈ l, noParen f = true) :
    (Join l sep).data.count c = 0 := by
  have hs : sep.data.count c = 0 := by
    rcases hc with rfl | rfl
    · exact ((noParen_iff sep).1 hsep).1
    · exact ((noParen_iff sep).1 hsep).2
  rw [count_Join_eq c sep hs]
  apply List.sum_eq_zero
  intro x hx
  obtain ⟨f, hf, rfl⟩ := List.mem_map.1 hx
  rcases hc with rfl | rfl
  · exact ((noParen_iff f).1 (hl f hf)).1
  · exact ((noParen_iff f).1 (hl f hf)).2

theorem noParen_windowAttrs {attr : List Attribute}
    (h : attr.all (fun x => noParen x.Key && noParen x.Val) = true) :
    ∀ f ∈ windowAttrs attr, noParen f = true := by
  simp only [List.all_eq_true, Bool.and_eq_true] at h
  rw [windowAttrs_eq_map]
  intro f hf
  obtain ⟨a, ha, rfl⟩ := List.mem_map.1 hf
  by_cases hv : a.Val = ""
  · simp only [hv, if_true]
    exact noParen_append (by decide) (h a ha).1
  · simp only [hv, if_false]
    exact noParen_append (noParen_append (noParen_append (noParen_append (by decide) (h a ha).1)
      (by decide)) (h a ha).2) (by decide)

theorem plainNodes_mem {cs : List Node} (h : plainNodes cs = true) :
    ∀ n ∈ cs, plainNode n = true := by
  induction cs with
  | nil => intro n hn; cases hn
  | cons c rest ih =>
    simp only [plainNodes, Bool.and_eq_true] at h
    intro n hn
    rcases List.mem_cons.1 hn with rfl | hn
    · exact h.1
    · exact ih h.2 n hn

theorem count_withGeometry (attrs : List String) (hattrs : ∀ f ∈ attrs, noParen f = true)
    (cs : List Node) (hcs : plainNodes cs = true) :
    (Join (withGeometry attrs (findGeometry cs)) "\n  ").data.count ')'
      = (Join (withGeometry attrs (findGeometry cs)) "\n  ").data.count '(' := by
  rw [findGeometry_eq_last]
  cases hg : (cs.filter isGeometry).getLast? with
  | none =>
    simp only [withGeometry]
    rw [count_Join_noParen '(' (Or.inl rfl) "\n  " (by decide) _ hattrs,
      count_Join_noParen ')' (Or.inr rfl) "\n  " (by decide) _ hattrs]
  | some g =>
    have hmem := List.mem_of_getLast?_eq_some hg
    have hgeo : isGeometry g = true := (List.mem_filter.1 hmem).2
    have hplain := plainNodes_mem hcs g (List.mem_filter.1 hmem).1
    have hga : g.Attr.all (fun x => noParen x.Key && noParen x.Val) = true := by
      cases g with
      | mk t d a ccs =>
        simp only [isGeometry, Node.Typ, Node.Data, Bool.and_eq_true, beq_iff_eq] at hgeo
        simp only [plainNode, Bool.and_eq_true, Bool.or_eq_true, beq_iff_eq, hgeo.1,
          reduceCtorEq, false_or] at hplain
        exact hplain.2.1.2
    simp only [List.all_eq_true, Bool.and_eq_true] at hga
    have hfr : ∀ f ∈ g.Attr.map (fun ga => ":" ++ ga.Key ++ " \"" ++ ga.Val ++ "\""),
        noParen f = true := by
      intro f hf
      obtain ⟨a, ha, rfl⟩ := List.mem_map.1 hf
      exact noParen_append (noParen_append (noParen_append (noParen_append (by decide)
        (hga a ha).1) (by decide)) (hga a ha).2) (by decide)
    have j1 := count_Join_noParen '(' (Or.inl rfl) "\n  " (by decide) _ hfr
    have j2 := count_Join_noParen ')' (Or.inr rfl) "\n  " (by decide) _ hfr
    simp only [withGeometry, foldl_append_singleton, List.nil_append]
    rw [count_Join_eq ')' "\n  " (by decide), count_Join_eq '(' "\n  " (by decide)]
    simp only [List.map_append, List.sum_append, List.map_cons, List.map_nil, List.sum_cons,
      List.sum_nil, String.data_append, List.count_append, j1, j2]
    have e1 : (List.map (fun x => List.count ')' x.data) attrs).sum = 0 := by
      apply List.sum_eq_zero
      intro x hx
      obtain ⟨f, hf, rfl⟩ := List.mem_map.1 hx
      exact ((noParen_iff f).1 (hattrs f hf)).2
    have e2 : (List.map (fun x => List.count '(' x.data) attrs).sum = 0 := by
      apply List.sum_eq_zero
      intro x hx
      obtain ⟨f, hf, rfl⟩ := List.mem_map.1 hx
      exact ((noParen_iff f).1 (hattrs f hf)).1
    rw [e1, e2]
    decide

theorem count_windowChildren (cs : List Node) (hcs : plainNodes cs = true) :
    (windowChildren cs).data.count ')'
      = (windowChildren cs).data.count '(' + (cs.filter (fun c => !isGeometry c)).length := by
  induction cs with
  | nil => simp [windowChildren]
  | cons c rest ih =>
    have hrest : plainNodes rest = true := by
      simp only [plainNodes, Bool.and_eq_true] at hcs
      exact hcs.2
    have ih2 := ih hrest
    by_cases hg : c.Typ = NodeType.ElementNode ∧ c.Data = "geometry"
    · have hgeo : isGeometry c = true := by simp [isGeometry, hg.1, hg.2]
      simp only [windowChildren, hg, and_self, if_true, String.data_append, List.count_append,
        List.filter_cons, hgeo, Bool.not_true, Bool.false_eq_true, if_false]
      simpa using ih2
    · have hgeo : isGeometry c = false := by simpa [isGeometry] using hg
      have hw := (closes_walkWidgets (c :: rest) 1 hcs).1
      simp only [windowChildren, hg, if_false, String.data_append, List.count_append,
        List.filter_cons, hgeo, Bool.not_false, if_true, List.length_cons, hw, ih2]
      omega

/-- The text of a `window` element whose descendants are plain and whose strings
hold no parenthesis holds as many surplus `)` as the window has children that
are not geometry elements. -/
theorem count_defwindow (c : Node)
    (ht : c.Typ = NodeType.ElementNode) (hd : c.Data = "window")
    (hattr : c.Attr.all (fun x => noParen x.Key && noParen x.Val) = true)
    (hdesc : plainNodes c.children = true) :
    (topLevel c).data.count ')'
      = (topLevel c).data.count '('
        + (c.children.filter (fun x => !isGeometry x)).length := by
  have hn := (noParen_iff _).1 (noParen_scanAttrs hattr).1
  have hg := count_withGeometry (windowAttrs c.Attr) (noParen_windowAttrs hattr) c.children hdesc
  have hc := count_windowChildren c.children hdesc
  rw [topLevel_window ht hd]
  simp only [defwindow, windowHead, String.data_append, List.count_append, hn.1, hn.2, hg, hc]
  have e1 : List.count ')' ("(defwindow " : String).data = 0 := by decide
  have e2 : List.count '(' ("(defwindow " : String).data = 1 := by decide
  have e3 : List.count ')' ("\n  " : String).data = 0 := by decide
  have e4 : List.count '(' ("\n  " : String).data = 0 := by decide
  have e5 : List.count ')' ("\n" : String).data = 0 := by decide
  have e6 : List.count '(' ("\n" : String).data = 0 := by decide
  have e7 : List.count ')' ("\n\n)" : String).data = 1 := by decide
  have e8 : List.count '(' ("\n\n)" : String).data = 0 := by decide
  rw [e1, e2, e3, e4, e5, e6, e7, e8]
  omega

/-! ## The value type inferencer -/

theorem parseDigits_eq (ds : List Char) (acc : Nat) :
    parseDigits ds acc
      = if ds.all isDigitChar = true
        then some (ds.foldl (fun n c => n * 10 + (c.toNat - 48)) acc) else none := by
  induction ds generalizing acc with
  | nil => simp [parseDigits]
  | cons c cs ih =>
    by_cases h : 48 ≤ c.toNat ∧ c.toNat ≤ 57
    · have hd : isDigitChar c = true := by simp [isDigitChar, h.1, h.2]
      simp only [parseDigits, h, and_self, if_true, ih, List.all_cons, hd, Bool.true_and,
        List.foldl_cons]
    · have hd : isDigitChar c = false := by
        simp only [isDigitChar, Bool.and_eq_false_iff, decide_eq_false_iff_not]
        by_cases h1 : 48 ≤ c.toNat
        · exact Or.inr (fun h2 => h ⟨h1, h2⟩)
        · exact Or.inl h1
      simp only [parseDigits, h, if_false, List.all_cons, hd, Bool.false_and,
        Bool.false_eq_true]

theorem Atoi_isSome_of_integer (s : String) (h1 : isDecimalInteger s = true)
    (h2 : -(2 : Int) ^ 63 ≤ decimalValue s) (h3 : decimalValue s < (2 : Int) ^ 63) :
    Atoi s = some (decimalValue s) := by
  unfold isDecimalInteger at h1
  unfold decimalValue at h2 h3
  unfold Atoi decimalValue
  cases hs : s.data with
  | nil => rw [hs] at h1; cases h1
  | cons c cs =>
    rw [hs] at h1 h2 h3
    simp only at h1 h2 h3 ⊢
    by_cases hm : c = '-'
    · subst hm
      simp only [or_true, if_true, Bool.and_eq_true, Bool.not_eq_true',
        List.isEmpty_eq_false] at h1 h2 h3 ⊢
      cases cs with
      | nil => simp at h1
      | cons d ds =>
        simp only [parseDigits_eq, h1.2, if_true, digitsValue, intSize] at h2 h3 ⊢
        rw [if_pos]
        have : ((2 : Int) ^ 63) = ((2 ^ 63 : Nat) : Int) := by norm_num
        omega
    · by_cases hp : c = '+'
      · subst hp
        simp only [hm, if_false, true_or, if_true, Bool.and_eq_true, Bool.not_eq_true',
          List.isEmpty_eq_false] at h1 h2 h3 ⊢
        cases cs with
        | nil => simp at h1
        | cons d ds =>
          simp only [parseDigits_eq, h1.2, if_true, digitsValue, intSize] at h2 h3 ⊢
          rw [if_pos]
          have : ((2 : Int) ^ 63) = ((2 ^ 63 : Nat) : Int) := by norm_num
          omega
      · simp only [hm, hp, or_self, if_false] at h1 h2 h3 ⊢
        simp only [parseDigits_eq, h1, if_true, digitsValue, intSize] at h2 h3 ⊢
        rw [if_pos]
        have : ((2 : Int) ^ 63) = ((2 ^ 63 : Nat) : Int) := by norm_num
        omega

theorem isDecimalInteger_of_Atoi (s : String) (h : (Atoi s).isSome = true) :
    isDecimalInteger s = true := by
  unfold Atoi at h
  unfold isDecimalInteger
  cases hs : s.data with
  | nil => rw [hs] at h; cases h
  | cons c cs =>
    rw [hs] at h
    simp only at h ⊢
    by_cases hm : c = '-'
    · subst hm
      simp only [if_true, or_true] at h ⊢
      cases cs with
      | nil => cases h
      | cons d ds =>
        simp only [parseDigits_eq] at h
        by_cases hall : (d :: ds).all isDigitChar = true
        · simp [hall]
        · simp [hall] at h
    · by_cases hp : c = '+'
      · subst hp
        simp only [hm, if_false, if_true, true_or] at h ⊢
        cases cs with
        | nil => cases h
        | cons d ds =>
          simp only [parseDigits_eq] at h
          by_cases hall : (d :: ds).all isDigitChar = true
          · simp [hall]
          · simp [hall] at h
      · simp only [hm, hp, if_false, or_self] at h ⊢
        simp only [parseDigits_eq] at h
        by_cases hall : (c :: cs).all isDigitChar = true
        · exact hall
        · simp [hall] at h

theorem getType_of_Atoi (s : String) (h : (Atoi s).isSome = true) : getType s = s := by
  simp only [getType, h, if_true]

theorem head_tail_of_delimited {l : List Char} {a b : Char} (hl : l.length > 1)
    (hh : l.head? = some a) (ht : l.getLast? = some b) :
    l = a :: ((l.drop 1).take (l.length - 2) ++ [b]) := by
  cases l with
  | nil => cases hh
  | cons x xs =>
    simp only [List.head?_cons, Option.some.injEq] at hh
    subst hh
    have hne : xs ≠ [] := by
      intro h; subst h; simp at hl
    obtain ⟨ys, hys⟩ := List.getLast?_eq_some_iff.1 ht
    cases ys with
    | nil =>
      simp only [List.nil_append] at hys
      cases xs with
      | nil => exact absurd rfl hne
      | cons z zs => cases hys
    | cons y ys2 =>
      simp only [List.cons_append, List.cons.injEq] at hys
      obtain ⟨_, hxs⟩ := hys
      subst hxs
      simp

theorem Atoi_none_of_head {s : String} {c : Char} (hh : s.data.head? = some c)
    (h1 : c ≠ '+') (h2 : c ≠ '-') (h3 : isDigitChar c = false) : (Atoi s).isSome = false := by
  cases hA : (Atoi s).isSome with
  | false => rfl
  | true =>
    have h := isDecimalInteger_of_Atoi s hA
    unfold isDecimalInteger at h
    cases hs : s.data with
    | nil => rw [hs] at hh; cases hh
    | cons x xs =>
      rw [hs] at hh h
      simp only [List.head?_cons, Option.some.injEq] at hh
      subst hh
      simp [h1, h2, h3] at h

theorem toNat_ofNat_lower (n : Nat) (h1 : 97 ≤ n) (h2 : n ≤ 122) : (Char.ofNat n).toNat = n := by
  interval_cases n <;> rfl

/-- For a lower-case ASCII letter `l` other than `i` and `k`, the characters lowered
to `l` are `l` and its capital. -/
theorem toLowerRune_eq_iff (c l : Char) (h1 : 97 ≤ l.toNat) (h2 : l.toNat ≤ 122)
    (hi : l.toNat ≠ 105) (hk : l.toNat ≠ 107) :
    toLowerRune c = l ↔ sameLetter c l = true := by
  simp only [sameLetter, Bool.or_eq_true, beq_iff_eq]
  unfold toLowerRune
  by_cases hu : 65 ≤ c.toNat ∧ c.toNat ≤ 90
  · rw [if_pos hu]
    constructor
    · intro h
      right
      have := congrArg Char.toNat h
      rw [toNat_ofNat_lower _ (by omega) (by omega)] at this
      exact this
    · rintro (h | h)
      · subst h; omega
      · rw [h, Char.ofNat_toNat]
  · rw [if_neg hu]
    by_cases h130 : c.toNat = 0x130
    · rw [if_pos h130]
      constructor
      · intro h
        have := congrArg Char.toNat h
        have e : ('i' : Char).toNat = 105 := rfl
        omega
      · rintro (h | h)
        · subst h; omega
        · omega
    · rw [if_neg h130]
      by_cases h212 : c.toNat = 0x212A
      · rw [if_pos h212]
        constructor
        · intro h
          have := congrArg Char.toNat h
          have e : ('k' : Char).toNat = 107 := rfl
          omega
        · rintro (h | h)
          · subst h; omega
          · omega
      · rw [if_neg h212]
        constructor
        · intro h; exact Or.inl h
        · rintro (h | h)
          · exact h
          · exfalso; omega

theorem map_toLowerRune_eq_iff (l w : List Char)
    (hw : ∀ x ∈ w, 97 ≤ x.toNat ∧ x.toNat ≤ 122 ∧ x.toNat ≠ 105 ∧ x.toNat ≠ 107) :
    l.map toLowerRune = w
      ↔ (l.length == w.length && (l.zip w).all (fun p => sameLetter p.1 p.2)) = true := by
  induction l generalizing w with
  | nil =>
    cases w with
    | nil => simp
    | cons x xs => simp
  | cons c cs ih =>
    cases w with
    | nil => simp
    | cons x xs =>
      have hx := hw x (List.mem_cons_self _ _)
      have ih2 := ih xs (fun y hy => hw y (List.mem_cons_of_mem _ hy))
      simp only [List.map_cons, List.cons.injEq, List.length_cons, List.zip_cons_cons,
        List.all_cons, Bool.and_eq_true, beq_iff_eq, Nat.add_right_cancel_iff] at ih2 ⊢
      rw [toLowerRune_eq_iff c x hx.1 hx.2.1 hx.2.2.1 hx.2.2.2, ih2]
      tauto

theorem ToLower_eq_iff (s word : String)
    (hw : ∀ x ∈ word.data, 97 ≤ x.toNat ∧ x.toNat ≤ 122 ∧ x.toNat ≠ 105 ∧ x.toNat ≠ 107) :
    ToLower s = word ↔ equalsIgnoreCase s word = true := by
  rw [equalsIgnoreCase, ← map_toLowerRune_eq_iff _ _ hw, ToLower]
  constructor
  · intro h; rw [← h]
  · intro h; rw [h]

theorem ToLower_eq_true_iff (s : String) :
    ToLower s = "true" ↔ equalsIgnoreCase s "true" = true :=
  ToLower_eq_iff s "true" (by decide)

theorem ToLower_eq_false_iff (s : String) :
    ToLower s = "false" ↔ equalsIgnoreCase s "false" = true :=
  ToLower_eq_iff s "false" (by decide)

theorem toLowerRune_digit {c : Char} (h : isDigitChar c = true) : toLowerRune c = c := by
  simp only [isDigitChar, Bool.and_eq_true, decide_eq_true_eq] at h
  unfold toLowerRune
  rw [if_neg (by omega), if_neg (by omega), if_neg (by omega)]

theorem getType_of_ToLower (s w : String) (hw : w = "true" ∨ w = "false")
    (h : ToLower s = w) : getType s = w := by
  have hd : s.data.map toLowerRune = w.data := by rw [← h]; rfl
  obtain ⟨l, rest, hl, hl2⟩ : ∃ l rest, w.data = l :: rest ∧ (l = 't' ∨ l = 'f') := by
    rcases hw with rfl | rfl
    · exact ⟨'t', _, rfl, Or.inl rfl⟩
    · exact ⟨'f', _, rfl, Or.inr rfl⟩
  cases hs : s.data with
  | nil => rw [hs, hl] at hd; cases hd
  | cons c cs =>
    rw [hs, hl] at hd
    simp only [List.map_cons, List.cons.injEq] at hd
    have hc := hd.1
    have hhead : s.data.head? = some c := by rw [hs]; rfl
    have n1 : c ≠ '+' := by
      rintro rfl; rcases hl2 with rfl | rfl <;> revert hc <;> decide
    have n2 : c ≠ '-' := by
      rintro rfl; rcases hl2 with rfl | rfl <;> revert hc <;> decide
    have n3 : c ≠ Char.ofNat 123 := by
      rintro rfl; rcases hl2 with rfl | rfl <;> revert hc <;> decide
    have n4 : c ≠ '(' := by
      rintro rfl; rcases hl2 with rfl | rfl <;> revert hc <;> decide
    have n5 : c ≠ '[' := by
      rintro rfl; rcases hl2 with rfl | rfl <;> revert hc <;> decide
    have n6 : isDigitChar c = false := by
      cases hdig : isDigitChar c with
      | false => rfl
      | true =>
        rw [toLowerRune_digit hdig] at hc
        subst hc
        rcases hl2 with rfl | rfl <;> revert hdig <;> decide
    have hA := Atoi_none_of_head hhead n1 n2 n6
    have hT : ToLower s = "true" ∨ ToLower s = "false" := by
      rcases hw with rfl | rfl
      · exact Or.inl h
      · exact Or.inr h
    simp only [getType, hA, Bool.false_eq_true, if_false, hhead, Option.some.injEq, n3, n4, n5,
      false_and, and_false, hT, if_true]
    exact h

theorem getType_eq_word_iff (s w : String) (hw : w = "true" ∨ w = "false") :
    getType s = w ↔ ToLower s = w ∨ s = "[" ++ w ++ "]" := by
  constructor
  · intro h
    unfold getType at h
    split_ifs at h with h1 h2 h3 h4 h5
    · exfalso
      subst h
      rcases hw with rfl | rfl <;> revert h1 <;> decide
    · exfalso
      subst h
      rcases hw with rfl | rfl <;> revert h2 <;> decide
    · exfalso
      subst h
      rcases hw with rfl | rfl <;> revert h3 <;> decide
    · right
      have hshape := head_tail_of_delimited h4.1 h4.2.1 h4.2.2
      apply String.ext
      rw [hshape, ← h]
      rfl
    · exact Or.inl h
    · exfalso
      have := congrArg String.data h
      simp only [String.data_append] at this
      rcases hw with rfl | rfl <;> cases this
  · rintro (h | h)
    · exact getType_of_ToLower s w hw h
    · subst h
      rcases hw with rfl | rfl <;> decide

/-! ## The tree serializer -/

theorem join_cons (x : String) (l : List String) : String.join (x :: l) = x ++ String.join l := by
  have key : ∀ (l : List String) (acc : String),
      l.foldl (fun r s => r ++ s) acc = acc ++ l.foldl (fun r s => r ++ s) "" := by
    intro l
    induction l with
    | nil => intro acc; simp
    | cons y l ih =>
      intro acc
      rw [List.foldl_cons, List.foldl_cons, ih, ih ("" ++ y), String.append_assoc]
      simp
  simp only [String.join, List.foldl_cons]
  rw [key]
  simp

theorem walkFirstChild_eq (n : Node) (level : Nat) :
    walkFirstChild visitNode n level
      = if n.Typ ≠ NodeType.TextNode then walkWidgets visitNode n.children (level + 1)
        else "" := by
  cases n with
  | mk t d a cs => rfl

theorem walkWidgets_append (visit : Node → Nat → String) (pre post : List Node) (level : Nat) :
    walkWidgets visit (pre ++ post) level
      = String.join (pre.map (fun n => visit n level ++ walkFirstChild visit n level))
        ++ walkWidgets visit post level := by
  induction pre with
  | nil => simp [String.join]
  | cons n rest ih =>
    rw [List.cons_append, walkWidgets, ih, List.map_cons, join_cons]
    simp only [String.append_assoc]

/-! ## Indentation -/

theorem Repeat_space (n : Nat) : Repeat " " n = spaces n := by
  induction n with
  | zero => rfl
  | succ n ih =>
    rw [Repeat, ih]
    apply String.ext
    simp [spaces, String.data_append, List.replicate_succ]

theorem splitChars_of_not_mem (sep : Char) (a : List Char) (h : sep ∉ a) :
    splitChars sep a = (a, []) := by
  induction a with
  | nil => rfl
  | cons c cs ih =>
    have hc : c ≠ sep := fun e => h (e ▸ List.mem_cons_self _ _)
    have hcs : sep ∉ cs := fun hm => h (List.mem_cons_of_mem _ hm)
    simp only [splitChars, hc, if_false, ih hcs]

theorem splitChars_append (sep : Char) (a b : List Char) (h : sep ∉ a) :
    splitChars sep (a ++ sep :: b) = (a, (splitChars sep b).1 :: (splitChars sep b).2) := by
  induction a with
  | nil => simp [splitChars]
  | cons c cs ih =>
    have hc : c ≠ sep := fun e => h (e ▸ List.mem_cons_self _ _)
    have hcs : sep ∉ cs := fun hm => h (List.mem_cons_of_mem _ hm)
    have ih2 := ih hcs
    rw [List.cons_append, splitChars, if_neg hc, ih2]

theorem Split_Join (l : String) (ls : List String)
    (h : ∀ x ∈ l :: ls, '\n' ∉ x.data) :
    Split (Join (l :: ls) "\n") '\n' = l :: ls := by
  induction ls generalizing l with
  | nil =>
    simp only [Join, Split, splitChars_of_not_mem _ _ (h l (List.mem_cons_self _ _)),
      List.map_nil]
  | cons m ms ih =>
    have hl := h l (List.mem_cons_self _ _)
    have ih2 := ih m (fun x hx => h x (List.mem_cons_of_mem _ hx))
    simp only [Split, List.cons.injEq] at ih2
    have hd : (Join (l :: m :: ms) "\n").data = l.data ++ '\n' :: (Join (m :: ms) "\n").data := by
      simp only [Join, String.data_append, List.append_assoc]
      rfl
    simp only [Split, hd, splitChars_append _ _ _ hl, List.map_cons, ih2.1, ih2.2]

theorem indent_Join (l : String) (ls : List String) (n : Nat)
    (h : ∀ x ∈ l :: ls, '\n' ∉ x.data) :
    indent (Join (l :: ls) "\n") n = Join ((l :: ls).map (fun x => spaces n ++ x)) "\n" := by
  simp only [indent, Split_Join l ls h, Repeat_space]

theorem indent_empty (n : Nat) : indent "" n = spaces n := by
  simp only [indent, Split, splitChars, List.map_nil, List.map_cons, Join, Repeat_space]
  apply String.ext
  simp [String.data_append]

theorem not_mem_append {c : Char} {a b : String} (ha : c ∉ a.data) (hb : c ∉ b.data) :
    c ∉ (a ++ b).data := by
  simp only [String.data_append, List.mem_append, not_or]
  exact ⟨ha, hb⟩

theorem newline_not_mem_getType {v : String} (h : '\n' ∉ v.data) : '\n' ∉ (getType v).data := by
  unfold getType
  split_ifs with h1 h2 h3 h4 h5
  · exact h
  · exact h
  · exact h
  · intro hm
    exact h ((List.drop_sublist 1 _).subset ((List.take_sublist _ _).subset hm))
  · rcases h5 with h5 | h5 <;> rw [h5] <;> decide
  · exact not_mem_append (not_mem_append (by decide) h) (by decide)

theorem visitFields_eq (attr : List Attribute) :
    visitFields attr
      = (attr.filter (fun a => decide (a.Val ≠ ""))).map
          (fun a => ":" ++ a.Key ++ " " ++ getType a.Val) := by
  induction attr with
  | nil => rfl
  | cons a rest ih =>
    by_cases hv : a.Val = ""
    · have hd : decide (a.Val ≠ "") = false := by simpa using hv
      rw [visitFields, if_pos hv, ih, List.filter_cons, hd]
      simp only [Bool.false_eq_true, if_false]
    · have hd : decide (a.Val ≠ "") = true := by simpa using hv
      rw [visitFields, if_neg hv, ih, List.filter_cons, hd]
      simp only [if_true, List.map_cons]

/-! ## The tree normaliser -/

theorem TrimSpace_data (s : String) :
    (TrimSpace s).data = (s.data.dropWhile isSpace).rdropWhile isSpace := rfl

theorem TrimSpace_idempotent (s : String) : TrimSpace (TrimSpace s) = TrimSpace s := by
  apply String.ext
  rw [TrimSpace_data, TrimSpace_data]
  generalize ha : s.data.dropWhile isSpace = a
  have hda : a.dropWhile isSpace = a := by rw [← ha, List.dropWhile_idempotent]
  have hdt : (a.rdropWhile isSpace).dropWhile isSpace = a.rdropWhile isSpace := by
    obtain ⟨r, hr⟩ := List.rdropWhile_prefix isSpace a
    cases ht : a.rdropWhile isSpace with
    | nil => rfl
    | cons x t =>
      rw [ht] at hr
      have hx : ¬ isSpace x = true := by
        have := (List.dropWhile_eq_self_iff).1 hda
        rw [← hr] at this
        exact this (by simp)
      rw [List.dropWhile_cons_of_neg hx]
  rw [hdt, List.rdropWhile_idempotent]

mutual
theorem labels_removeWhitespaceChildren : ∀ (cs : List Node), textLeavesAll cs = true →
    (descendantsAll (removeWhitespaceChildren cs)).map nodeLabel
      = (descendantsAll cs).filterMap normalizedLabel
  | [], _ => rfl
  | Node.mk t d a ccs :: rest, h => by
    simp only [textLeavesAll, Bool.and_eq_true] at h
    have ihr := labels_removeWhitespaceChildren rest h.2
    have ihc := labels_removeWhitespaceTextNodes (Node.mk t d a ccs) h.1
    by_cases ht : t = NodeType.TextNode
    · subst ht
      have hccs : ccs = [] := by
        have h1 := h.1
        simp only [textLeaves, bne_self_eq_false, Bool.false_or, Bool.and_eq_true,
          List.isEmpty_iff] at h1
        exact h1.1
      subst hccs
      by_cases he : TrimSpace d = ""
      · simp only [removeWhitespaceChildren, Node.Typ, Node.Data, if_true, he, descendantsAll,
          descendants, List.nil_append, List.filterMap_cons, normalizedLabel, ihr]
      · simp only [removeWhitespaceChildren, Node.Typ, Node.Data, Node.Attr, Node.children,
          if_true, he, if_false, descendantsAll, descendants, List.nil_append, List.map_cons,
          List.filterMap_cons, normalizedLabel, nodeLabel, ihr]
    · simp only [removeWhitespaceTextNodes, descendants] at ihc
      simp only [removeWhitespaceChildren, removeWhitespaceTextNodes, Node.Typ, ht, if_false,
        descendantsAll, descendants, List.map_cons, List.map_append, List.filterMap_cons,
        List.filterMap_append, normalizedLabel, nodeLabel, Node.Data, Node.Attr, ihc, ihr]
theorem labels_removeWhitespaceTextNodes : ∀ (n : Node), textLeaves n = true →
    (descendants (removeWhitespaceTextNodes n)).map nodeLabel
      = (descendants n).filterMap normalizedLabel
  | Node.mk t d a cs, h => by
    simp only [textLeaves, Bool.and_eq_true] at h
    simp only [removeWhitespaceTextNodes, descendants]
    exact labels_removeWhitespaceChildren cs h.2
end

/-- The text written before the children of a window, as the code computes it:
the window's own fragments, then a block `:geometry (geometry ...)` for the
geometry child that the loop of lines 75-79 is left with (the last one), each of
its attributes rendered as `:key "value"`; no block without a geometry child. -/
theorem windowHead_eq (c : Node) (name : String) :
    windowHead c name
      = "(defwindow " ++ name ++ "\n  "
        ++ "\n  ".intercalate
            (windowAttrs c.Attr ++
              match (c.children.filter isGeometry).getLast? with
              | none => []
              | some g =>
                [":geometry (geometry "
                  ++ "\n  ".intercalate
                      (g.Attr.map (fun ga => ":" ++ ga.Key ++ " \"" ++ ga.Val ++ "\""))
                  ++ ")"])
        ++ "\n" := by
  rw [windowHead, findGeometry_eq_last, Join_eq_intercalate]
  cases (c.children.filter isGeometry).getLast? with
  | none => simp only [withGeometry, List.append_nil]
  | some g =>
    simp only [withGeometry, foldl_append_singleton, List.nil_append, Join_eq_intercalate]

/-! ## The claims -/

/-- C1: the translation of a document tree fails with the error `no <html> tag
found in input` exactly when no direct child of the document is an element with
tag `html`; it fails with `no <body> tag found inside <html>` exactly when there
is such a child and the first one has no direct element child with tag `body`;
it returns a text in every other case, and no other error exists. -/
theorem C1_fatal_errors (doc : Node) :
    (transpileTree doc = Except.error "no <html> tag found in input"
      ↔ ¬ ∃ c ∈ doc.children, c.Typ = NodeType.ElementNode ∧ c.Data = "html")
    ∧ (transpileTree doc = Except.error "no <body> tag found inside <html>"
      ↔ ∃ h, doc.children.find?
              (fun c => decide (c.Typ = NodeType.ElementNode ∧ c.Data = "html")) = some h
          ∧ ¬ ∃ c ∈ h.children, c.Typ = NodeType.ElementNode ∧ c.Data = "body")
    ∧ ((∃ text, transpileTree doc = Except.ok text)
      ↔ ∃ h, doc.children.find?
              (fun c => decide (c.Typ = NodeType.ElementNode ∧ c.Data = "html")) = some h
          ∧ ∃ c ∈ h.children, c.Typ = NodeType.ElementNode ∧ c.Data = "body") := by
  have hne : ("no <body> tag found inside <html>" : String) ≠ "no <html> tag found in input" := by
    decide
  rw [← findElement_eq_none, ← findElement_eq_find]
  unfold transpileTree
  cases hh : findElement "html" doc.children with
  | none => simp
  | some h =>
    cases hb : findElement "body" h.children with
    | none =>
      have hb2 := (findElement_eq_none "body" h.children).1 hb
      simp only [hb]
      simp only [not_exists, not_and] at hb2
      simp [hne]
      exact hb2
    | some b =>
      have hb2 : ∃ c ∈ h.children, c.Typ = NodeType.ElementNode ∧ c.Data = "body" := by
        by_contra hcon
        rw [(findElement_eq_none "body" h.children).2 hcon] at hb
        cases hb
      simp only [hb]
      simp [hb2]

/-- C2: the text of a top-level `widget` element whose descendants are text
nodes and elements with a tag name that is not empty, and whose strings hold no
parenthesis, is well nested: as many `)` as `(`, and no prefix of it with more
`)` than `(`.  Every element below the widget contributes exactly one `(` and
one `)`: the text holds one `(` and one `)` for the widget and one of each for
every element below it. -/
theorem C2_defwidget_well_nested (c : Node)
    (ht : c.Typ = NodeType.ElementNode) (hd : c.Data = "widget")
    (hattr : c.Attr.all (fun x => noParen x.Key && noParen x.Val) = true)
    (hdesc : plainNodes c.children = true) :
    WellNested (topLevel c)
      ∧ (topLevel c).data.count '(' = 1 + elementCountAll c.children
      ∧ (topLevel c).data.count ')' = 1 + elementCountAll c.children := by
  rw [topLevel_widget ht hd]
  obtain ⟨hname, hfields⟩ := noParen_scanAttrs hattr
  have hw := closes_walkWidgets c.children 2 hdesc
  have hn := (noParen_iff _).1 hname
  have hj1 : (Join (scanAttrs c.Attr).1 " ").data.count '(' = 0 := by
    rw [count_Join_eq _ _ (by decide)]
    apply List.sum_eq_zero
    intro x hx
    obtain ⟨f, hf, rfl⟩ := List.mem_map.1 hx
    exact ((noParen_iff f).1 (hfields f hf)).1
  have hj2 : (Join (scanAttrs c.Attr).1 " ").data.count ')' = 0 := by
    rw [count_Join_eq _ _ (by decide)]
    apply List.sum_eq_zero
    intro x hx
    obtain ⟨f, hf, rfl⟩ := List.mem_map.1 hx
    exact ((noParen_iff f).1 (hfields f hf)).2
  have hhead1 : ("(defwidget " ++ (scanAttrs c.Attr).2 ++ " "
      ++ ("[" ++ Join (scanAttrs c.Attr).1 " " ++ "]")).data.count '(' = 1 := by
    simp only [String.data_append, List.count_append, hn.1, hj1]
    decide
  have hhead2 : ("(defwidget " ++ (scanAttrs c.Attr).2 ++ " "
      ++ ("[" ++ Join (scanAttrs c.Attr).1 " " ++ "]")).data.count ')' = 0 := by
    simp only [String.data_append, List.count_append, hn.2, hj2]
    decide
  have hnest : WellNested (defwidget c (scanAttrs c.Attr).2 (scanAttrs c.Attr).1) := by
    apply wellNested_of_closes
    unfold defwidget
    rw [String.data_append]
    exact closes_open hhead1 hhead2 hw
  have hopen : (defwidget c (scanAttrs c.Attr).2 (scanAttrs c.Attr).1).data.count '('
      = 1 + elementCountAll c.children := by
    unfold defwidget
    rw [String.data_append, List.count_append, hhead1, count_open_walkWidgets _ _ hdesc]
  exact ⟨hnest, hopen, hnest.1.trans hopen⟩

/-- Witness of C2: the widget `w1 > box > label[text=hi]` of the end-to-end
scenario. -/
theorem C2_defwidget_well_nested_witness :
    topLevel scenarioWidget
        = "(defwidget w1 [class]    \n    (box\n            \n      (label\n        :text \"hi\")))"
      ∧ WellNested (topLevel scenarioWidget) :=
  ⟨by decide, (C2_defwidget_well_nested scenarioWidget (by decide) (by decide) (by decide)
    (by decide)).1⟩

/-- C3: the text of the window `<window name="w"><box></box></window>` holds two
`(` and three `)`: the walk of the child already ends with the `)` that closes
its parent, and the terminating `)` of the window is written as well, so the
defwindow text is not well nested. -/
theorem C3_defwindow_one_child_not_well_nested :
    topLevel windowWithBox = "(defwindow w\n  :name \"w\"\n  \n  (box\n    ))\n\n)"
      ∧ (topLevel windowWithBox).data.count '(' = 2
      ∧ (topLevel windowWithBox).data.count ')' = 3
      ∧ ¬ WellNested (topLevel windowWithBox) := by
  refine ⟨by decide, by decide, by decide, ?_⟩
  intro h
  have h1 := h.1
  revert h1
  decide

/-- C4: the text of a top-level `widget` element is `(defwidget `, the value of
its (last) `name` attribute or nothing when it has none, ` [`, the keys of the
attributes whose key is not `name` in encounter order joined by single spaces,
`]`, and the output of `walkWidgets` for its first child at level 2; a widget
without children gives exactly `(defwidget <name> [<fields>])`. -/
theorem C4_defwidget_text (c : Node)
    (ht : c.Typ = NodeType.ElementNode) (hd : c.Data = "widget") :
    topLevel c
        = "(defwidget "
          ++ (((c.Attr.filter (fun a => decide (a.Key = "name"))).getLast?).map
                (fun a => a.Val)).getD ""
          ++ " ["
          ++ " ".intercalate
              ((c.Attr.filter (fun a => decide (a.Key ≠ "name"))).map (fun a => a.Key))
          ++ "]" ++ walkWidgets visitNode c.children 2
      ∧ (c.children = [] →
          topLevel c
            = "(defwidget "
              ++ (((c.Attr.filter (fun a => decide (a.Key = "name"))).getLast?).map
                    (fun a => a.Val)).getD ""
              ++ " ["
              ++ " ".intercalate
                  ((c.Attr.filter (fun a => decide (a.Key ≠ "name"))).map (fun a => a.Key))
              ++ "])") := by
  have h : topLevel c
        = "(defwidget "
          ++ (((c.Attr.filter (fun a => decide (a.Key = "name"))).getLast?).map
                (fun a => a.Val)).getD ""
          ++ " ["
          ++ " ".intercalate
              ((c.Attr.filter (fun a => decide (a.Key ≠ "name"))).map (fun a => a.Key))
          ++ "]" ++ walkWidgets visitNode c.children 2 := by
    rw [topLevel_widget ht hd, defwidget, scanAttrs_name, scanAttrs_fields, Join_eq_intercalate]
    simp only [String.append_assoc]
    rfl
  refine ⟨h, ?_⟩
  intro hc
  rw [h, hc]
  simp only [walkWidgets, String.append_assoc]
  rfl

/-- Witness of C4: the widget of the end-to-end scenario. -/
theorem C4_defwidget_text_witness :
    topLevel scenarioWidget
      = "(defwidget " ++ "w1" ++ " [" ++ "class" ++ "]"
          ++ walkWidgets visitNode scenarioWidget.children 2 :=
  (C4_defwidget_text scenarioWidget (by decide) (by decide)).1

/-- C5, as stated, fails: the widget `<widget name="w"><box></box><label></label>
</widget>` does not give the text of the same widget with `<box></box>` as its
only child; the `label` element is serialized too. -/
theorem C5_later_siblings_are_serialized :
    widgetWithFirstChild
        = Node.mk widgetWithTwoChildren.Typ widgetWithTwoChildren.Data
            widgetWithTwoChildren.Attr (widgetWithTwoChildren.children.take 1)
      ∧ topLevel widgetWithTwoChildren
          = "(defwidget w []    \n    (box\n      )    \n    (label\n      ))"
      ∧ topLevel widgetWithFirstChild = "(defwidget w []    \n    (box\n      ))"
      ∧ topLevel widgetWithTwoChildren ≠ topLevel widgetWithFirstChild := by
  refine ⟨rfl, by decide, by decide, by decide⟩

/-- C5, amended: the body of a widget is the whole list of its children.  The
text of a widget with children `c1, c2, ..., ck` is the text of the same widget
with `c1` as its only child in which the final `)` is replaced by the output of
`walkWidgets` for `c2, ..., ck` at level 2; the two texts are equal only when
`c1` is the only child. -/
theorem C5_widget_body_is_all_children (a : List Attribute) (c1 : Node) (rest : List Node) :
    ∃ pre : String,
      topLevel (Node.mk NodeType.ElementNode "widget" a [c1]) = pre ++ ")"
      ∧ topLevel (Node.mk NodeType.ElementNode "widget" a (c1 :: rest))
          = pre ++ walkWidgets visitNode rest 2
      ∧ (topLevel (Node.mk NodeType.ElementNode "widget" a (c1 :: rest))
            = topLevel (Node.mk NodeType.ElementNode "widget" a [c1])
          ↔ rest = []) := by
  refine ⟨"(defwidget " ++ (scanAttrs a).2 ++ " " ++ ("[" ++ Join (scanAttrs a).1 " " ++ "]")
    ++ (visitNode c1 2 ++ walkFirstChild visitNode c1 2), ?_, ?_, ?_⟩
  · rw [@topLevel_widget (Node.mk NodeType.ElementNode "widget" a [c1]) rfl rfl]
    simp only [defwidget, Node.children, Node.Attr, walkWidgets, String.append_assoc]
  · rw [@topLevel_widget (Node.mk NodeType.ElementNode "widget" a (c1 :: rest)) rfl rfl]
    simp only [defwidget, Node.children, Node.Attr, walkWidgets, String.append_assoc]
  · rw [@topLevel_widget (Node.mk NodeType.ElementNode "widget" a (c1 :: rest)) rfl rfl,
      @topLevel_widget (Node.mk NodeType.ElementNode "widget" a [c1]) rfl rfl]
    simp only [defwidget, Node.children, Node.Attr, walkWidgets]
    constructor
    · intro h
      have h2 := congrArg (fun s => s.data.length) h
      simp only [String.data_append, List.length_append, List.length_cons,
        List.length_nil] at h2
      cases rest with
      | nil => rfl
      | cons n r =>
        have := length_walkWidgets_cons n r 2
        omega
    · rintro rfl
      simp only [walkWidgets]

/-- C6: for the children `<box></box><geometry x="0"></geometry>` of a window,
the text written after the attribute block holds a `(geometry` fragment, and is
not the text written for the children without the geometry element. -/
theorem C6_geometry_after_sibling_is_serialized :
    windowChildren boxThenGeometry = "  \n  (box\n    )  \n  (geometry\n    :x 0))"
      ∧ windowChildren (boxThenGeometry.filter (fun c => !isGeometry c))
          = "  \n  (box\n    ))"
      ∧ windowChildren boxThenGeometry
          ≠ windowChildren (boxThenGeometry.filter (fun c => !isGeometry c)) := by
  refine ⟨by decide, by decide, by decide⟩

/-- C7: in the window with the two children `<geometry x="1">` and
`<geometry x="2">` the first geometry child in document order carries `x="1"`,
but the geometry block of the window is built from `x="2"`: the loop that looks
for the geometry child has no `break` and keeps the last match, where the loops
that look for `html` and `body` stop at the first. -/
theorem C7_geometry_block_not_from_first :
    (windowWithTwoGeometries.children.find? isGeometry).map Node.Attr
        = some [⟨"", "x", "1"⟩]
      ∧ (findGeometry windowWithTwoGeometries.children).map Node.Attr
        = some [⟨"", "x", "2"⟩]
      ∧ windowHead windowWithTwoGeometries ""
          = "(defwindow \n  :geometry (geometry :x \"2\")\n"
      ∧ windowHead windowWithTwoGeometries ""
          ≠ "(defwindow \n  :geometry (geometry :x \"1\")\n" := by
  refine ⟨by decide, by decide, by decide, by decide⟩

/-- C8: the field list of a widget never holds the key `name`, but the window
`<window name="bar"></window>` gives the attribute fragment `:name "bar"`: the
name is written after `(defwindow ` and again in the attribute list. -/
theorem C8_window_name_is_emitted_again :
    (∀ attr : List Attribute, "name" ∉ (scanAttrs attr).1)
      ∧ windowAttrs windowNamedBar.Attr = [":name \"bar\""]
      ∧ topLevel windowNamedBar = "(defwindow bar\n  :name \"bar\"\n\n\n)" := by
  refine ⟨?_, by decide, by decide⟩
  intro attr h
  rw [scanAttrs_fields] at h
  obtain ⟨a, ha, hk⟩ := List.mem_map.1 h
  have := (List.mem_filter.1 ha).2
  simp only [ne_eq, decide_not, Bool.not_eq_true', decide_eq_false_iff_not] at this
  exact this hk

/-- C9: the text of a top-level `window` element is `(defwindow `, its name, a
newline and two spaces, then the fragments of its attributes in encounter order
(`:key "value"` with the value verbatim for a value that is not empty, the bare
`:key` for an empty value, no attribute left out) followed by the geometry block
if there is one, joined by a newline and two spaces, then a newline; the children
and the terminating text follow. -/
theorem C9_defwindow_attributes (c : Node)
    (ht : c.Typ = NodeType.ElementNode) (hd : c.Data = "window") :
    topLevel c
      = "(defwindow "
        ++ (((c.Attr.filter (fun a => decide (a.Key = "name"))).getLast?).map
              (fun a => a.Val)).getD ""
        ++ "\n  "
        ++ "\n  ".intercalate
            (withGeometry
              (c.Attr.map (fun a =>
                if a.Val = "" then ":" ++ a.Key else ":" ++ a.Key ++ " \"" ++ a.Val ++ "\""))
              (findGeometry c.children))
        ++ "\n"
        ++ (windowChildren c.children ++ "\n\n)") := by
  rw [topLevel_window ht hd, defwindow, windowHead, scanAttrs_name, windowAttrs_eq_map,
    Join_eq_intercalate]
  simp only [String.append_assoc]

/-- Witness of C9: a window with a name, a valued attribute, a flag and a
geometry child. -/
theorem C9_defwindow_attributes_witness :
    topLevel scenarioWindow
      = "(defwindow " ++ "bar" ++ "\n  "
        ++ "\n  ".intercalate
            [":name \"bar\"", ":monitor \"0\"", ":focusable",
              ":geometry (geometry :x \"0\"\n  :y \"0\")"]
        ++ "\n"
        ++ (windowChildren scenarioWindow.children ++ "\n\n)") :=
  C9_defwindow_attributes scenarioWindow (by decide) (by decide)

/-- C10: for a document whose first `html` element has a first `body` element,
the returned text is the header `;; Auto-generated Yuck widgets from HTML ;;`,
a blank line, and the texts built for the children of `body` that are elements
tagged `window` or `widget`, concatenated in document order; the other children
contribute nothing, so a document whose body holds only those elements returns
the same text, and the text is the header alone when there is none. -/
theorem C10_output_is_header_and_forms (doc h b : Node)
    (hh : doc.children.find?
            (fun c => decide (c.Typ = NodeType.ElementNode ∧ c.Data = "html")) = some h)
    (hb : h.children.find?
            (fun c => decide (c.Typ = NodeType.ElementNode ∧ c.Data = "body")) = some b) :
    transpileTree doc
        = Except.ok (";; Auto-generated Yuck widgets from HTML ;;\n\n"
            ++ String.join ((b.children.filter isTopLevelForm).map topLevel))
      ∧ (∀ doc2 h2 b2 : Node,
          doc2.children.find?
              (fun c => decide (c.Typ = NodeType.ElementNode ∧ c.Data = "html")) = some h2 →
          h2.children.find?
              (fun c => decide (c.Typ = NodeType.ElementNode ∧ c.Data = "body")) = some b2 →
          b2.children = b.children.filter isTopLevelForm →
          transpileTree doc2 = transpileTree doc)
      ∧ (b.children.filter isTopLevelForm = [] →
          transpileTree doc = Except.ok ";; Auto-generated Yuck widgets from HTML ;;\n\n") := by
  have key : ∀ d x y : Node,
      d.children.find?
          (fun c => decide (c.Typ = NodeType.ElementNode ∧ c.Data = "html")) = some x →
      x.children.find?
          (fun c => decide (c.Typ = NodeType.ElementNode ∧ c.Data = "body")) = some y →
      transpileTree d
        = Except.ok (";; Auto-generated Yuck widgets from HTML ;;\n\n"
            ++ String.join ((y.children.filter isTopLevelForm).map topLevel)) := by
    intro d x y hx hy
    rw [← findElement_eq_find] at hx hy
    simp only [transpileTree, hx, hy, foldl_topLevel]
    rfl
  refine ⟨key doc h b hh hb, ?_, ?_⟩
  · intro doc2 h2 b2 hh2 hb2 hcs
    rw [key doc h b hh hb, key doc2 h2 b2 hh2 hb2, hcs, List.filter_filter]
    simp
  · intro hnone
    rw [key doc h b hh hb, hnone]
    rfl

/-- Witness of C10: a body with a text node, the scenario widget, an element
with another tag and the scenario window. -/
theorem C10_output_is_header_and_forms_witness :
    transpileTree
        (documentWithBody
          [Node.mk NodeType.TextNode "x" [] [], scenarioWidget,
            Node.mk NodeType.ElementNode "div" [] [], scenarioWindow])
      = Except.ok (";; Auto-generated Yuck widgets from HTML ;;\n\n"
          ++ String.join [topLevel scenarioWidget, topLevel scenarioWindow]) :=
  (C10_output_is_header_and_forms
    (documentWithBody
      [Node.mk NodeType.TextNode "x" [] [], scenarioWidget,
        Node.mk NodeType.ElementNode "div" [] [], scenarioWindow])
    (Node.mk NodeType.ElementNode "html" []
      [Node.mk NodeType.ElementNode "head" [] [],
        Node.mk NodeType.ElementNode "body" []
          [Node.mk NodeType.TextNode "x" [] [], scenarioWidget,
            Node.mk NodeType.ElementNode "div" [] [], scenarioWindow]])
    (Node.mk NodeType.ElementNode "body" []
      [Node.mk NodeType.TextNode "x" [] [], scenarioWidget,
        Node.mk NodeType.ElementNode "div" [] [], scenarioWindow])
    rfl rfl).1

/-- C11, as stated, fails: `9223372036854775808` is a sign-free run of decimal
digits, and `getType` returns it between double quotes, because its value does
not fit an `int` and `strconv.Atoi` returns a range error. -/
theorem C11_integer_out_of_range_is_quoted :
    isDecimalInteger "9223372036854775808" = true
      ∧ Atoi "9223372036854775808" = none
      ∧ getType "9223372036854775808" = "\"9223372036854775808\""
      ∧ getType "9223372036854775808" ≠ "9223372036854775808" := by
  refine ⟨by decide, by decide, by decide, by decide⟩

/-- C11, amended: for every string that is an optional `+` or `-` followed by one
or more ASCII decimal digits and whose value fits a 64-bit `int` (from `-2^63` to
`2^63 - 1`), `getType` returns the string unchanged and unquoted. -/
theorem C11_integer_in_range_verbatim (s : String) (hint : isDecimalInteger s = true)
    (hlo : -(2 : Int) ^ 63 ≤ decimalValue s) (hhi : decimalValue s < (2 : Int) ^ 63) :
    getType s = s := by
  apply getType_of_Atoi
  rw [Atoi_isSome_of_integer s hint hlo hhi]
  rfl

/-- Witness of C11: `42` renders as `42`. -/
theorem C11_integer_in_range_verbatim_witness : getType "42" = "42" :=
  C11_integer_in_range_verbatim "42" (by decide) (by decide) (by decide)

/-- C12: for every string of length greater than 1 whose first character is `[`
and whose last character is `]`, `getType` returns the string without its first
and last characters, whatever stands between them. -/
theorem C12_list_brackets_stripped (s : String) (hlen : s.data.length > 1)
    (hfirst : s.data.head? = some '[') (hlast : s.data.getLast? = some ']') :
    getType s = String.mk (s.data.drop 1).dropLast
      ∧ s = "[" ++ getType s ++ "]" := by
  have hA := Atoi_none_of_head hfirst (by decide) (by decide) (by decide)
  have hshape := head_tail_of_delimited hlen hfirst hlast
  have hg : getType s = String.mk ((s.data.drop 1).take (s.data.length - 2)) := by
    have e1 : ¬ ((some '[' : Option Char) = some (Char.ofNat 123)) := by decide
    have e2 : ¬ ((some '[' : Option Char) = some '(') := by decide
    simp only [getType, hA, Bool.false_eq_true, if_false, e1, e2, false_and, and_false,
      hlen, hfirst, hlast, and_self, if_true]
  constructor
  · rw [hg]
    congr 1
    generalize hm : (s.data.drop 1).take (s.data.length - 2) = m at hshape
    rw [hshape]
    simp
  · rw [hg]
    apply String.ext
    simp only [String.data_append]
    exact hshape

/-- Witness of C12: `[a b c]` renders as `a b c`, and `[]` as the empty
string. -/
theorem C12_list_brackets_stripped_witness :
    getType "[a b c]" = "a b c" ∧ getType "[]" = "" :=
  ⟨(C12_list_brackets_stripped "[a b c]" (by decide) (by decide) (by decide)).1,
   (C12_list_brackets_stripped "[]" (by decide) (by decide) (by decide)).1⟩

/-- C13: for every string of length greater than 1 that starts with an opening
brace and ends with a closing brace, or starts with `(` and ends with `)`,
`getType` returns the string unchanged and unquoted. -/
theorem C13_expressions_verbatim (s : String) (hlen : s.data.length > 1)
    (hdelim : (s.data.head? = some (Char.ofNat 123) ∧ s.data.getLast? = some (Char.ofNat 125))
      ∨ (s.data.head? = some '(' ∧ s.data.getLast? = some ')')) :
    getType s = s := by
  rcases hdelim with ⟨hf, hl⟩ | ⟨hf, hl⟩
  · have hA := Atoi_none_of_head hf (by decide) (by decide) (by decide)
    simp only [getType, hA, Bool.false_eq_true, if_false, hlen, hf, hl, and_self, if_true]
  · have hA := Atoi_none_of_head hf (by decide) (by decide) (by decide)
    have e1 : ¬ (some '(' = some (Char.ofNat 123)) := by decide
    simp only [getType, hA, Bool.false_eq_true, if_false, hlen, hf, hl, e1, false_and,
      and_false, and_self, if_true]

/-- Witness of C13: the brace expression around `foo` and the call `(+ 1 2)`. -/
theorem C13_expressions_verbatim_witness :
    getType "\x7bfoo\x7d" = "\x7bfoo\x7d" ∧ getType "(+ 1 2)" = "(+ 1 2)" :=
  ⟨C13_expressions_verbatim "\x7bfoo\x7d" (by decide) (Or.inl ⟨by decide, by decide⟩),
   C13_expressions_verbatim "(+ 1 2)" (by decide) (Or.inr ⟨by decide, by decide⟩)⟩

/-- C14, as stated, fails: `getType` returns the unquoted `true` for the input
`[true]`, which does not equal `true` or `false` when case is ignored. -/
theorem C14_bracketed_true_is_unquoted :
    getType "[true]" = "true"
      ∧ equalsIgnoreCase "[true]" "true" = false
      ∧ equalsIgnoreCase "[true]" "false" = false := by
  refine ⟨by decide, by decide, by decide⟩

/-- C14, amended: for every string that equals `true` or `false` when letter case
is ignored, `getType` returns the lower-case literal `true` or `false`, unquoted;
and `getType` returns an unquoted `true` (respectively `false`) only for such an
input or for the bracketed input `[true]` (respectively `[false]`), whose
brackets it strips. -/
theorem C14_boolean_literals (s : String) :
    (equalsIgnoreCase s "true" = true → getType s = "true")
      ∧ (equalsIgnoreCase s "false" = true → getType s = "false")
      ∧ (getType s = "true" ↔ equalsIgnoreCase s "true" = true ∨ s = "[true]")
      ∧ (getType s = "false" ↔ equalsIgnoreCase s "false" = true ∨ s = "[false]") := by
  have ht := getType_eq_word_iff s "true" (Or.inl rfl)
  have hf := getType_eq_word_iff s "false" (Or.inr rfl)
  rw [ToLower_eq_true_iff] at ht
  rw [ToLower_eq_false_iff] at hf
  exact ⟨fun h => ht.2 (Or.inl h), fun h => hf.2 (Or.inl h), ht, hf⟩

/-- Witness of C14: `TRUE`, `tRuE` and `False`. -/
theorem C14_boolean_literals_witness :
    getType "TRUE" = "true" ∧ getType "tRuE" = "true" ∧ getType "False" = "false" :=
  ⟨(C14_boolean_literals "TRUE").1 (by decide), (C14_boolean_literals "tRuE").1 (by decide),
   (C14_boolean_literals "False").2.1 (by decide)⟩

/-- C15: `getType` is a total function, and for every string that is not a
decimal integer, is not a string of length greater than 1 delimited by braces,
by `(` and `)` or by `[` and `]`, and does not equal `true` or `false` when case
is ignored, it returns a double quote, the string verbatim (embedded double
quotes included), and a double quote. -/
theorem C15_otherwise_quoted (s : String)
    (hint : isDecimalInteger s = false)
    (hbrace : ¬ (s.data.length > 1 ∧ s.data.head? = some (Char.ofNat 123)
      ∧ s.data.getLast? = some (Char.ofNat 125)))
    (hparen : ¬ (s.data.length > 1 ∧ s.data.head? = some '(' ∧ s.data.getLast? = some ')'))
    (hlist : ¬ (s.data.length > 1 ∧ s.data.head? = some '[' ∧ s.data.getLast? = some ']'))
    (htrue : equalsIgnoreCase s "true" = false)
    (hfalse : equalsIgnoreCase s "false" = false) :
    getType s = "\"" ++ s ++ "\"" := by
  have hA : (Atoi s).isSome = false := by
    cases h : (Atoi s).isSome with
    | false => rfl
    | true => rw [isDecimalInteger_of_Atoi s h] at hint; cases hint
  have h5 : ¬ (ToLower s = "true" ∨ ToLower s = "false") := by
    rw [ToLower_eq_true_iff, ToLower_eq_false_iff, htrue, hfalse]
    simp
  unfold getType
  rw [if_neg (by rw [hA]; simp), if_neg hbrace, if_neg hparen, if_neg hlist, if_neg h5]

/-- Witness of C15: the empty string, the one-character strings made of an
opening brace, `(` and `[`, the numeral `3.14`, and a string with an embedded
double quote. -/
theorem C15_otherwise_quoted_witness :
    getType "" = "\"\""
      ∧ getType "\x7b" = "\"\x7b\""
      ∧ getType "(" = "\"(\""
      ∧ getType "[" = "\"[\""
      ∧ getType "3.14" = "\"3.14\""
      ∧ getType "a\"b" = "\"a\"b\"" :=
  ⟨C15_otherwise_quoted "" (by decide) (by decide) (by decide) (by decide) (by decide)
      (by decide),
   C15_otherwise_quoted "\x7b" (by decide) (by decide) (by decide) (by decide) (by decide)
      (by decide),
   C15_otherwise_quoted "(" (by decide) (by decide) (by decide) (by decide) (by decide)
      (by decide),
   C15_otherwise_quoted "[" (by decide) (by decide) (by decide) (by decide) (by decide)
      (by decide),
   C15_otherwise_quoted "3.14" (by decide) (by decide) (by decide) (by decide) (by decide)
      (by decide),
   C15_otherwise_quoted "a\"b" (by decide) (by decide) (by decide) (by decide) (by decide)
      (by decide)⟩

/-- C16: in a tree whose text nodes are leaves (as in every parsed tree), after
`removeWhitespaceTextNodes` every text node below the root has a content that is
not empty and equals its own trimmed form; the nodes below the root, read in
document order with their type, data and attributes, are those of the tree
before, where a text node whose content trims to the empty string is removed,
any other text node has its content trimmed, and every other node is unchanged;
the root keeps its type, data and attributes. -/
theorem C16_normalised_tree (root : Node) (hleaf : textLeaves root = true) :
    (∀ n ∈ descendants (removeWhitespaceTextNodes root), n.Typ = NodeType.TextNode →
        n.Data ≠ "" ∧ TrimSpace n.Data = n.Data)
      ∧ (descendants (removeWhitespaceTextNodes root)).map nodeLabel
          = (descendants root).filterMap normalizedLabel
      ∧ nodeLabel (removeWhitespaceTextNodes root) = nodeLabel root := by
  have hlab := labels_removeWhitespaceTextNodes root hleaf
  refine ⟨?_, hlab, ?_⟩
  · intro n hn ht
    have hmem : nodeLabel n ∈ (descendants (removeWhitespaceTextNodes root)).map nodeLabel :=
      List.mem_map_of_mem _ hn
    rw [hlab] at hmem
    obtain ⟨m, _, hm⟩ := List.mem_filterMap.1 hmem
    unfold normalizedLabel at hm
    by_cases hmt : m.Typ = NodeType.TextNode
    · rw [if_pos hmt] at hm
      by_cases he : TrimSpace m.Data = ""
      · rw [if_pos he] at hm; cases hm
      · rw [if_neg he] at hm
        simp only [nodeLabel, Option.some.injEq, Prod.mk.injEq] at hm
        rw [← hm.2.1]
        exact ⟨he, TrimSpace_idempotent m.Data⟩
    · rw [if_neg hmt] at hm
      simp only [nodeLabel, Option.some.injEq, Prod.mk.injEq] at hm
      exact absurd (hm.1.trans ht) hmt
  · cases root with
    | mk t d a cs => rfl

/-- Witness of C16: in `<div> <p id="x">  hello  </p><!-- c --> </div>` the two
text nodes of one space are removed, the text `  hello  ` becomes `hello`, and
the `p` element and the comment are unchanged. -/
theorem C16_normalised_tree_witness :
    (descendants (removeWhitespaceTextNodes scenarioTree)).map nodeLabel
      = [(NodeType.ElementNode, "p", [⟨"", "id", "x"⟩]),
         (NodeType.TextNode, "hello", []),
         (NodeType.CommentNode, " c ", [])] :=
  (C16_normalised_tree scenarioTree (by decide)).2.1

/-- C17: for every sibling list and every level, `walkWidgets` returns (the
embedding is a total function) and appends, for each node of the list in order,
`visitNode` of the node followed, when the node is not a text node, by the output
of `walkWidgets` for the node's children one level deeper, and then a single `)`
after the last sibling.  A text node adds exactly one space followed by `getType`
of its content, and nothing else; that text holds no parenthesis when the
content holds none. -/
theorem C17_walkWidgets_sibling_list (ns : List Node) (level : Nat) :
    walkWidgets visitNode ns level
        = String.join (ns.map (fun n => nodeContribution n level)) ++ ")"
      ∧ (∀ (d : String) (a : List Attribute) (cs : List Node),
          nodeContribution (Node.mk NodeType.TextNode d a cs) level = " " ++ getType d)
      ∧ (∀ (d : String) (a : List Attribute) (cs : List Node), noParen d = true →
          noParen (nodeContribution (Node.mk NodeType.TextNode d a cs) level) = true) := by
  have htext : ∀ (d : String) (a : List Attribute) (cs : List Node),
      nodeContribution (Node.mk NodeType.TextNode d a cs) level = " " ++ getType d := by
    intro d a cs
    simp only [nodeContribution, visitNode, Node.Typ, Node.Data, if_true, ne_eq,
      not_true_eq_false, if_false, String.append_empty]
  refine ⟨?_, htext, ?_⟩
  · induction ns with
    | nil => rfl
    | cons n rest ih =>
      rw [walkWidgets, ih, List.map_cons, join_cons, walkFirstChild_eq, nodeContribution]
      simp only [String.append_assoc]
  · intro d a cs hd
    rw [htext]
    exact noParen_append (by decide) (noParen_getType hd)

/-- Witness of C17: the text node `hello` followed by an element `box`. -/
theorem C17_walkWidgets_sibling_list_witness :
    walkWidgets visitNode
        [Node.mk NodeType.TextNode "hello" [] [], Node.mk NodeType.ElementNode "box" [] []] 1
      = " \"hello\"  \n  (box\n    ))"
      ∧ noParen (nodeContribution (Node.mk NodeType.TextNode "hello" [] []) 1) = true :=
  ⟨by decide,
   (C17_walkWidgets_sibling_list [] 1).2.2 "hello" [] [] (by decide)⟩

/-- C18: for an element with a tag name that is not empty and a level `L`, where
the tag, the attribute keys and the attribute values hold no newline,
`visitNode` returns `2*L` spaces, a newline, `2*L` spaces, `(` and the tag, a
newline, and then one line per attribute with a value that is not empty, in
encounter order, each made of `2*(L+1)` spaces and `:key ` followed by `getType`
of the value, the lines joined by newlines; a single line of `2*(L+1)` spaces
when no attribute has a value.  Attributes with an empty value are dropped. -/
theorem C18_visitNode_element (tag : String) (attr : List Attribute) (cs : List Node)
    (level : Nat) (htag : tag ≠ "") (hnl : '\n' ∉ tag.data)
    (hattr : ∀ a ∈ attr, '\n' ∉ a.Key.data ∧ '\n' ∉ a.Val.data) :
    visitNode (Node.mk NodeType.ElementNode tag attr cs) level
      = spaces (2 * level) ++ "\n" ++ spaces (2 * level) ++ "(" ++ tag ++ "\n"
        ++ (if attr.filter (fun a => decide (a.Val ≠ "")) = [] then spaces (2 * (level + 1))
            else "\n".intercalate
              ((attr.filter (fun a => decide (a.Val ≠ ""))).map
                (fun a => spaces (2 * (level + 1)) ++ ":" ++ a.Key ++ " " ++ getType a.Val))) := by
  have hpre : indent ("\n(" ++ tag) (level * 2)
      = spaces (2 * level) ++ "\n" ++ spaces (2 * level) ++ "(" ++ tag := by
    have e : ("\n(" ++ tag : String) = Join ["", "(" ++ tag] "\n" := by
      simp only [Join]
      apply String.ext
      simp [String.data_append]
    have hno : ∀ x ∈ ["", "(" ++ tag], '\n' ∉ x.data := by
      intro x hx
      simp only [List.mem_cons, List.mem_singleton, List.not_mem_nil, or_false] at hx
      rcases hx with rfl | rfl
      · decide
      · exact not_mem_append (by decide) hnl
    rw [e, indent_Join _ _ _ hno, Nat.mul_comm]
    simp only [List.map_cons, List.map_nil, Join]
    apply String.ext
    simp [String.data_append]
  have hfields : ∀ f ∈ (attr.filter (fun a => decide (a.Val ≠ ""))).map
      (fun a => ":" ++ a.Key ++ " " ++ getType a.Val), '\n' ∉ f.data := by
    intro f hf
    obtain ⟨a, ha, rfl⟩ := List.mem_map.1 hf
    have hm := hattr a (List.mem_filter.1 ha).1
    exact not_mem_append (not_mem_append (not_mem_append (by decide) hm.1) (by decide))
      (newline_not_mem_getType hm.2)
  simp only [visitNode, Node.Typ, Node.Data, Node.Attr, reduceCtorEq, if_false, ne_eq,
    not_true_eq_false, htag, hpre, visitFields_eq]
  congr 1
  cases hq : attr.filter (fun a => decide (a.Val ≠ "")) with
  | nil =>
    simp only [List.map_nil, Join, if_true]
    rw [indent_empty, Nat.mul_comm]
  | cons q qs =>
    rw [hq] at hfields
    simp only [List.map_cons] at hfields ⊢
    rw [indent_Join _ _ _ hfields, ← Join_eq_intercalate, Nat.mul_comm]
    simp only [List.map_cons, List.map_map, reduceCtorEq, if_false, String.append_assoc]
    rfl

/-- Witness of C18: the element `<box a="1" e="" b="x">` at level 1. -/
theorem C18_visitNode_element_witness :
    visitNode
        (Node.mk NodeType.ElementNode "box" [⟨"", "a", "1"⟩, ⟨"", "e", ""⟩, ⟨"", "b", "x"⟩] [])
        1
      = "  \n  (box\n    :a 1\n    :b \"x\"" :=
  C18_visitNode_element "box" [⟨"", "a", "1"⟩, ⟨"", "e", ""⟩, ⟨"", "b", "x"⟩] [] 1
    (by decide) (by decide) (by decide)

/-- C19: the window `<window name="w"><box></box><label></label></window>` gives
a text in which the opening fragment `(label` stands twice: the loop over the
children calls `walkWidgets` on `box`, which walks on to `label`, and then on
`label` again. -/
theorem C19_window_child_serialized_twice :
    topLevel windowWithTwoChildren
        = "(defwindow w\n  :name \"w\"\n  \n  (box\n    )  \n  (label\n    ))  \n  (label\n    ))\n\n)"
      ∧ countOccurrences "(box".data (topLevel windowWithTwoChildren).data = 1
      ∧ countOccurrences "(label".data (topLevel windowWithTwoChildren).data = 2 := by
  refine ⟨by decide, by decide, by decide⟩

/-- C20, as stated, fails on the serializer: between `box` and `label`, an element
with an empty tag name and no children gives `))` where the list without it
gives `)`, so the two texts differ. -/
theorem C20_empty_tag_element_adds_paren :
    visitNode emptyTagElement 1 = ""
      ∧ walkWidgets visitNode
          [Node.mk NodeType.ElementNode "box" [] [], emptyTagElement,
            Node.mk NodeType.ElementNode "label" [] []] 1
          = "  \n  (box\n    ))  \n  (label\n    ))"
      ∧ walkWidgets visitNode
          [Node.mk NodeType.ElementNode "box" [] [],
            Node.mk NodeType.ElementNode "label" [] []] 1
          = "  \n  (box\n    )  \n  (label\n    ))"
      ∧ walkWidgets visitNode
          [Node.mk NodeType.ElementNode "box" [] [], emptyTagElement,
            Node.mk NodeType.ElementNode "label" [] []] 1
          ≠ walkWidgets visitNode
              [Node.mk NodeType.ElementNode "box" [] [],
                Node.mk NodeType.ElementNode "label" [] []] 1 := by
  refine ⟨by decide, by decide, by decide, by decide⟩

/-- C20, amended: an element with an empty tag name renders as empty text, and
`walkWidgets`, which descends below every node that is not a text node, writes
the `)` of its absent first child: for every sibling list and level, the text of
a list that contains a childless empty-tag element is the text of the list
without that node with exactly one `)` added at the place of the node. -/
theorem C20_empty_tag_element_adds_one_paren (a : List Attribute) (pre post : List Node)
    (level : Nat) :
    visitNode (Node.mk NodeType.ElementNode "" a []) level = ""
      ∧ nodeContribution (Node.mk NodeType.ElementNode "" a []) level = ")"
      ∧ walkWidgets visitNode (pre ++ post) level
          = String.join (pre.map (fun n => nodeContribution n level))
            ++ walkWidgets visitNode post level
      ∧ walkWidgets visitNode (pre ++ Node.mk NodeType.ElementNode "" a [] :: post) level
          = String.join (pre.map (fun n => nodeContribution n level)) ++ ")"
            ++ walkWidgets visitNode post level := by
  have h1 : visitNode (Node.mk NodeType.ElementNode "" a []) level = "" := by
    simp [visitNode, Node.Typ, Node.Data]
  have h2 : nodeContribution (Node.mk NodeType.ElementNode "" a []) level = ")" := by
    rw [nodeContribution, h1]
    simp [Node.Typ, Node.children, walkWidgets]
  have happ : ∀ rest : List Node,
      walkWidgets visitNode (pre ++ rest) level
        = String.join (pre.map (fun n => nodeContribution n level))
          ++ walkWidgets visitNode rest level := by
    intro rest
    rw [walkWidgets_append]
    congr 2
    apply List.map_congr_left
    intro n _
    rw [walkFirstChild_eq, nodeContribution]
  refine ⟨h1, h2, happ post, ?_⟩
  rw [happ, walkWidgets, walkFirstChild_eq, ← nodeContribution, h2]
  simp only [String.append_assoc]

end YuckHtml
